import Mathlib

/-!
Verification of the Sudoku backtracking solver (`src/main.py`, class
`SudokuSolver`).

Shallow embedding of the core of `main.py`:

* A grid is a `List (List Int)` (Python `List[List[int]]`); `cell`/`setCell`
  model `board[i][j]` reads and writes (reads of an out-of-range index are
  totalised with default `0`; the claims under study only concern in-range
  accesses on well-formed boards, where this coincides with Python).
* The configuration part of the Python object (`size`, `subgrid_size`) is the
  structure `SudokuSolver`; `SudokuSolver.init` models `__init__`, with
  `int(size ** 0.5)` rendered as `Nat.sqrt size` (exact for the machine-range
  sizes the program works with).
* The mutable run state (`board`, `recursive_calls`, `time_limit_exceeded`,
  and the wall clock) is threaded explicitly through the solvers as `SState`.
  Wall-clock time is abstracted by an environment function `tmo : Nat → Bool`
  giving, for the `k`-th evaluation of
  `time.time() - self.start_time > self.timeout`, whether the deadline has
  been exceeded; `clock` counts those evaluations.
* The Python recursion of `solve_with_mrv` / `solve_simple` terminates because
  every recursive call first fills an empty cell; the embedding makes this
  bound explicit with a `fuel` parameter that strictly dominates the recursion
  depth.  `measure_performance` supplies `size * size + 1` fuel, which is
  proved sufficient (the out-of-fuel branch is unreachable on validated
  boards).
* `step_by_step` printing and the `print` statements are I/O and are not
  modelled; `step_by_step` defaults to `False` in the source.
-/

/-- Configuration fields of the Python `SudokuSolver` object (`self.size`,
`self.subgrid_size`).  The mutable per-run fields live in `SState` below. -/
structure SudokuSolver where
  size : Nat
  subgrid_size : Nat
deriving Repr, DecidableEq

/-- `SudokuSolver.__init__` (main.py:13-22): `self.size = size`;
`self.subgrid_size = int(size ** 0.5)`, modelled as `Nat.sqrt size`.
Note: the constructor has no failure path in the source. -/
def SudokuSolver.init (size : Nat) : SudokuSolver :=
  { size := size, subgrid_size := Nat.sqrt size }

/-- A Sudoku board: Python `List[List[int]]`. -/
abbrev Grid := List (List Int)

/-- Read `board[i][j]`, totalised with default `0` for out-of-range indices
(Python would raise `IndexError`; the claims only involve in-range reads). -/
def cell (b : Grid) (i j : Nat) : Int := (b.getD i []).getD j 0

/-- Write `board[i][j] = v`; out-of-range writes are no-ops. -/
def setCell (b : Grid) (i j : Nat) (v : Int) : Grid :=
  b.set i ((b.getD i []).set j v)

/-- The row-major scan order `for i in range(n): for j in range(n)` used by
the cell-scanning loops of `main.py`. -/
def rowMajor (n : Nat) : List (Nat × Nat) :=
  (List.range n).flatMap (fun i => (List.range n).map (fun j => (i, j)))

/-- `(row // self.subgrid_size) * self.subgrid_size` (main.py:94-95): the
first index of the box containing `idx`. -/
def box_start (s : SudokuSolver) (idx : Nat) : Nat :=
  idx / s.subgrid_size * s.subgrid_size

/-- `SudokuSolver.is_valid` (main.py:81-102): `num` may be placed at
`(row, col)` unless it already occurs at a *different* position in the same
row, the same column, or the same subgrid. -/
def is_valid (s : SudokuSolver) (b : Grid) (row col : Nat) (num : Int) : Bool :=
  ((List.range s.size).all fun j => !(cell b row j == num && j != col)) &&
  ((List.range s.size).all fun i => !(cell b i col == num && i != row)) &&
  ((List.range s.subgrid_size).all fun di =>
    (List.range s.subgrid_size).all fun dj =>
      !(cell b (box_start s row + di) (box_start s col + dj) == num &&
        !(box_start s row + di == row && box_start s col + dj == col)))

/-- The value sequence `range(1, size + 1)` iterated by the candidate loops
(main.py:58 and main.py:179): the integers `1 .. size` in ascending order. -/
def oneToN (n : Nat) : List Int :=
  List.map (fun k : Nat => (k : Int) + 1) (List.range n)

/-- The candidate list built by the inner loop of `find_best_empty`
(main.py:57-60): values `1..size` that pass `is_valid`, in ascending order. -/
def possible_values (s : SudokuSolver) (b : Grid) (i j : Nat) : List Int :=
  (oneToN s.size).filter fun num => is_valid s b i j num

/-- The scanning loop of `find_best_empty` (main.py:53-71), with the mutable
`best_cell` / `min_options` locals as accumulators.  A strictly smaller
candidate list replaces the tracked best; reaching `min_options == 1` returns
immediately. -/
def findBestAux (s : SudokuSolver) (b : Grid) :
    List (Nat × Nat) → Option (Nat × Nat × List Int) → Nat →
    Option (Nat × Nat × List Int)
  | [], best, _ => best
  | (i, j) :: rest, best, minOpt =>
    if cell b i j == 0 then
      let possible := possible_values s b i j
      if possible.length < minOpt then
        if possible.length == 1 then some (i, j, possible)
        else findBestAux s b rest (some (i, j, possible)) possible.length
      else findBestAux s b rest best minOpt
    else findBestAux s b rest best minOpt

/-- `SudokuSolver.find_best_empty` (main.py:45-71): MRV cell selection.
`min_options` starts at `self.size + 1`. -/
def find_best_empty (s : SudokuSolver) (b : Grid) :
    Option (Nat × Nat × List Int) :=
  findBestAux s b (rowMajor s.size) none (s.size + 1)

/-- `SudokuSolver.find_empty` (main.py:73-79): first empty cell in row-major
order. -/
def find_empty (s : SudokuSolver) (b : Grid) : Option (Nat × Nat) :=
  (rowMajor s.size).find? fun p => cell b p.1 p.2 == 0

/-- `f"Board must be {self.size}x{self.size}"` (main.py:108). -/
def dim_msg (s : SudokuSolver) : String :=
  "Board must be " ++ toString s.size ++ "x" ++ toString s.size

/-- `f"Value {num} at ({i},{j}) is not between 0 and {self.size}"`
(main.py:115). -/
def range_msg (s : SudokuSolver) (num : Int) (i j : Nat) : String :=
  "Value " ++ toString num ++ " at (" ++ toString i ++ "," ++ toString j ++
    ") is not between 0 and " ++ toString s.size

/-- `f"Conflict: {num} at ({i},{j}) violates Sudoku rules"` (main.py:122). -/
def conflict_msg (num : Int) (i j : Nat) : String :=
  "Conflict: " ++ toString num ++ " at (" ++ toString i ++ "," ++ toString j ++
    ") violates Sudoku rules"

/-- The per-cell loop of `validate_board` (main.py:111-125).  The grid is
threaded through because the source *mutates* it (temporarily blanking each
filled cell before the conflict check, then restoring it); frame claims are
stated about the returned grid. -/
def checkCells (s : SudokuSolver) : List (Nat × Nat) → Grid → Bool × String × Grid
  | [], b => (true, "Valid board", b)
  | (i, j) :: rest, b =>
    let num := cell b i j
    if ¬(0 ≤ num ∧ num ≤ (s.size : Int)) then
      (false, range_msg s num i j, b)
    else if num ≠ 0 then
      let b1 := setCell b i j 0
      if ¬ is_valid s b1 i j num then
        (false, conflict_msg num i j, setCell b1 i j num)
      else checkCells s rest (setCell b1 i j num)
    else checkCells s rest b

/-- `SudokuSolver.validate_board` (main.py:104-125).  Returns
`(ok, message, board-after-the-call)`. -/
def validate_board (s : SudokuSolver) (b : Grid) : Bool × String × Grid :=
  if b.length != s.size || b.any (fun row => row.length != s.size) then
    (false, dim_msg s, b)
  else checkCells s (rowMajor s.size) b

/-- Mutable run state of one solve: the board, the number of evaluations of
the deadline condition so far (`clock`, standing in for wall-clock time), and
the Python fields `self.recursive_calls`, `self.time_limit_exceeded`. -/
structure SState where
  board : Grid
  clock : Nat
  recursive_calls : Nat
  time_limit_exceeded : Bool
deriving Repr, DecidableEq

/-- The candidate loop shared by `solve_with_mrv` (main.py:143-162) and
`solve_simple` (main.py:179-186): for each `num` in order, if
`is_valid(board, row, col, num)` then assign, recurse via `solveF`,
propagate success, otherwise reset the cell to `0` and continue. -/
def tryNums (solveF : SState → Bool × SState) (s : SudokuSolver) (i j : Nat) :
    List Int → SState → Bool × SState
  | [], st => (false, st)
  | num :: rest, st =>
    if is_valid s st.board i j num then
      let r := solveF { st with board := setCell st.board i j num }
      if r.1 then r
      else tryNums solveF s i j rest { r.2 with board := setCell r.2.board i j 0 }
    else tryNums solveF s i j rest st

/-- `SudokuSolver.solve_with_mrv` (main.py:127-163).  Each invocation reads
the deadline once (`tmo st.clock`, advancing the clock); on timeout it sets
`time_limit_exceeded` and returns `False`; otherwise it increments
`recursive_calls`, selects a cell by MRV and runs the candidate loop.
`fuel` strictly dominates the recursion depth (the source recursion is
bounded because every call fills an empty cell). -/
def solve_with_mrv (tmo : Nat → Bool) (s : SudokuSolver) :
    Nat → SState → Bool × SState
  | 0, st => (false, st)
  | fuel + 1, st =>
    if tmo st.clock then
      (false, { st with clock := st.clock + 1, time_limit_exceeded := true })
    else
      let st1 := { st with clock := st.clock + 1,
                           recursive_calls := st.recursive_calls + 1 }
      match find_best_empty s st1.board with
      | none => (true, st1)
      | some (i, j, possible) => tryNums (solve_with_mrv tmo s fuel) s i j possible st1

/-- `SudokuSolver.solve_simple` (main.py:165-188): same skeleton as
`solve_with_mrv` but selecting the first empty cell and trying all of
`1..size`. -/
def solve_simple (tmo : Nat → Bool) (s : SudokuSolver) :
    Nat → SState → Bool × SState
  | 0, st => (false, st)
  | fuel + 1, st =>
    if tmo st.clock then
      (false, { st with clock := st.clock + 1, time_limit_exceeded := true })
    else
      let st1 := { st with clock := st.clock + 1,
                           recursive_calls := st.recursive_calls + 1 }
      match find_empty s st1.board with
      | none => (true, st1)
      | some (i, j) => tryNums (solve_simple tmo s fuel) s i j (oneToN s.size) st1

/-- `board_copy = [row[:] for row in board]` (main.py:197). -/
def copyGrid (b : Grid) : Grid := b.map fun row => row.map fun x => x

/-- The copy-back loop of `measure_performance` (main.py:216-218):
`board[i][j] = board_copy[i][j]` over the full row-major scan. -/
def copyBack (dst src : Grid) (n : Nat) : Grid :=
  (rowMajor n).foldl (fun d p => setCell d p.1 p.2 (cell src p.1 p.2)) dst

/-- `SudokuSolver.measure_performance` (main.py:190-220).  Returns
`(result, clock, recursive_calls, caller-board-after-the-call)`; the second
component models the elapsed time as the number of deadline polls.  The
validation failure path returns `(False, 0, 0)` leaving the caller's board
untouched; on success the solved copy is written back into the caller's
board. -/
def measure_performance (tmo : Nat → Bool) (s : SudokuSolver) (board : Grid)
    (use_mrv : Bool) : Bool × Nat × Nat × Grid :=
  let board_copy := copyGrid board
  match validate_board s board_copy with
  | (false, _, _) => (false, 0, 0, board)
  | (true, _, bv) =>
    let st0 : SState :=
      { board := bv, clock := 0, recursive_calls := 0, time_limit_exceeded := false }
    let r := if use_mrv then solve_with_mrv tmo s (s.size * s.size + 1) st0
             else solve_simple tmo s (s.size * s.size + 1) st0
    (r.1, r.2.clock, r.2.recursive_calls,
      if r.1 then copyBack board r.2.board s.size else board)

/-- Number of empty cells in the `n × n` scan window. -/
def emptyCount (n : Nat) (b : Grid) : Nat :=
  (rowMajor n).countP fun p => cell b p.1 p.2 == 0

/-- Well-formedness: the board is an `n × n` matrix (the property checked by
the dimension test of `validate_board`). -/
def WF (n : Nat) (b : Grid) : Prop :=
  b.length = n ∧ ∀ row ∈ b, row.length = n

/-- Every cell of the scan window holds a value in `[0, n]` (the range checked
by `validate_board`). -/
def InRange (s : SudokuSolver) (b : Grid) : Prop :=
  ∀ p ∈ rowMajor s.size, 0 ≤ cell b p.1 p.2 ∧ cell b p.1 p.2 ≤ (s.size : Int)

/-- Every filled cell passes `is_valid` against the rest of the board: the
no-conflict invariant. -/
def Good (s : SudokuSolver) (b : Grid) : Prop :=
  ∀ p ∈ rowMajor s.size, cell b p.1 p.2 ≠ 0 →
    is_valid s b p.1 p.2 (cell b p.1 p.2) = true

/-- No empty cell remains in the scan window. -/
def Complete (n : Nat) (b : Grid) : Prop :=
  ∀ p ∈ rowMajor n, cell b p.1 p.2 ≠ 0

/-- `b'` agrees with `b` on every filled cell of `b`. -/
def Extends (n : Nat) (b b' : Grid) : Prop :=
  ∀ p ∈ rowMajor n, cell b p.1 p.2 ≠ 0 → cell b' p.1 p.2 = cell b p.1 p.2

/-- `sol` is a full, conflict-free solution of the puzzle `b`. -/
def Solution (s : SudokuSolver) (b sol : Grid) : Prop :=
  WF s.size sol ∧ Complete s.size sol ∧ InRange s sol ∧ Good s sol ∧
    Extends s.size b sol

/-- The value-range test of `validate_board` fails at `p` (main.py:114). -/
def range_bad (s : SudokuSolver) (b : Grid) (p : Nat × Nat) : Bool :=
  !decide (0 ≤ cell b p.1 p.2 ∧ cell b p.1 p.2 ≤ (s.size : Int))

/-- The conflict test of `validate_board` fails at `p` (main.py:117-122):
the cell is filled and, with the cell temporarily blanked, its value is not
placeable there. -/
def conflict_bad (s : SudokuSolver) (b : Grid) (p : Nat × Nat) : Bool :=
  cell b p.1 p.2 != 0 &&
    !(is_valid s (setCell b p.1 p.2 0) p.1 p.2 (cell b p.1 p.2))

/-- Some per-cell test of `validate_board` fails at `p`. -/
def bad_cell (s : SudokuSolver) (b : Grid) (p : Nat × Nat) : Bool :=
  range_bad s b p || conflict_bad s b p

/-- The message `validate_board` produces for the first offending cell:
the range check runs before the conflict check. -/
def cell_msg (s : SudokuSolver) (b : Grid) (p : Nat × Nat) : String :=
  if range_bad s b p then range_msg s (cell b p.1 p.2) p.1 p.2
  else conflict_msg (cell b p.1 p.2) p.1 p.2

/-- 4×4 solver instance, the literal value built by `SudokuSolver(4)`
(`int(4 ** 0.5) = 2`); `solver4_eq_init` below proves it equals
`SudokuSolver.init 4`. -/
def solver4 : SudokuSolver := { size := 4, subgrid_size := 2 }

/-- 9×9 solver instance, the literal value built by `SudokuSolver(9)`;
`solver9_eq_init` below proves it equals `SudokuSolver.init 9`. -/
def solver9 : SudokuSolver := { size := 9, subgrid_size := 3 }

/-- The 4×4 puzzle from the source's test cases (main.py:448-453). -/
def grid44 : Grid := [[1, 0, 0, 0], [0, 0, 3, 0], [0, 2, 0, 0], [0, 0, 0, 4]]

/-- A 4×4 grid whose first empty cell `(0,0)` has an empty candidate set
while the empty cell `(2,1)` has the singleton candidate set `[4]`. -/
def gridDeadEnd : Grid := [[0, 3, 4, 2], [4, 2, 1, 3], [1, 0, 0, 0], [0, 0, 0, 0]]

/-- A 4×4 grid with a conflict at cell `(0,0)` (two `1`s in row 0) and an
out-of-range value `9` at the later cell `(2,3)`. -/
def gridMixedErr : Grid := [[1, 1, 0, 0], [0, 0, 0, 0], [0, 0, 0, 9], [0, 0, 0, 0]]

/-- The empty 4×4 grid. -/
def gridEmpty4 : Grid := [[0, 0, 0, 0], [0, 0, 0, 0], [0, 0, 0, 0], [0, 0, 0, 0]]

/-- An almost-complete valid 4×4 grid (one empty cell). -/
def gridAlmost : Grid := [[1, 2, 3, 4], [3, 4, 1, 2], [2, 1, 4, 3], [4, 3, 2, 0]]

/-- The unique completion of `gridAlmost`. -/
def gridAlmostSol : Grid := [[1, 2, 3, 4], [3, 4, 1, 2], [2, 1, 4, 3], [4, 3, 2, 1]]

/-- An unsolvable but conflict-free 4×4 grid: cell `(0,3)` must be `4` by its
row but column 3 already contains `4`. -/
def gridStuck : Grid := [[1, 2, 3, 0], [0, 0, 0, 0], [0, 0, 0, 0], [0, 0, 0, 4]]

/-- The run state at the start of a solve: fresh clock, zero recursive calls,
timeout flag cleared (main.py:192-194). -/
def startState (b : Grid) : SState :=
  { board := b, clock := 0, recursive_calls := 0, time_limit_exceeded := false }

instance : DecidablePred (WF n) := fun b => by unfold WF; infer_instance
instance : Decidable (InRange s b) := by unfold InRange; infer_instance
instance : Decidable (Good s b) := by unfold Good; infer_instance
instance : Decidable (Complete n b) := by unfold Complete; infer_instance
instance : Decidable (Extends n b b') := by unfold Extends; infer_instance
instance : Decidable (Solution s b sol) := by unfold Solution; infer_instance

/-! ## Basic list and grid lemmas -/

theorem getD_set_self {α : Type} (l : List α) (i : Nat) (a d : α)
    (h : i < l.length) : (l.set i a).getD i d = a := by
  induction l generalizing i with
  | nil => simp at h
  | cons x xs ih =>
    cases i with
    | zero => simp
    | succ n =>
      simp only [List.set, List.getD_cons_succ]
      exact ih n (by simpa using h)

theorem getD_set_ne {α : Type} (l : List α) (i k : Nat) (a d : α)
    (h : i ≠ k) : (l.set i a).getD k d = l.getD k d := by
  simp only [List.getD_eq_getElem?_getD, List.getElem?_set_ne h]

theorem set_getD_self {α : Type} (l : List α) (i : Nat) (d : α) :
    l.set i (l.getD i d) = l := by
  induction l generalizing i with
  | nil => simp
  | cons x xs ih =>
    cases i with
    | zero => simp
    | succ n => simp only [List.getD_cons_succ, List.set, ih]

theorem cell_setCell_ne (b : Grid) (i j p q : Nat) (v : Int)
    (h : (p, q) ≠ (i, j)) : cell (setCell b i j v) p q = cell b p q := by
  unfold cell setCell
  by_cases hpi : p = i
  · subst hpi
    have hq : q ≠ j := fun hq => h (by simp [hq])
    by_cases hlen : p < b.length
    · rw [getD_set_self _ _ _ _ hlen, getD_set_ne _ _ _ _ _ (fun hj => hq hj.symm)]
    · rw [List.set_eq_of_length_le (Nat.le_of_not_lt hlen)]
  · rw [getD_set_ne _ _ _ _ _ (fun hp => hpi hp.symm)]

theorem cell_setCell_self (b : Grid) (i j : Nat) (v : Int)
    (hi : i < b.length) (hj : j < (b.getD i []).length) :
    cell (setCell b i j v) i j = v := by
  unfold cell setCell
  rw [getD_set_self _ _ _ _ hi, getD_set_self _ _ _ _ hj]

theorem setCell_oob {b : Grid} {i : Nat} (j : Nat) (v : Int)
    (h : b.length ≤ i) : setCell b i j v = b := by
  unfold setCell; exact List.set_eq_of_length_le h

theorem setCell_setCell (b : Grid) (i j : Nat) (u v : Int) :
    setCell (setCell b i j u) i j v = setCell b i j v := by
  by_cases hlen : i < b.length
  · unfold setCell
    rw [getD_set_self _ _ _ _ hlen, List.set_set, List.set_set]
  · have hle := Nat.le_of_not_lt hlen
    rw [setCell_oob j u hle]

theorem setCell_cell_self (b : Grid) (i j : Nat) :
    setCell b i j (cell b i j) = b := by
  unfold setCell cell
  rw [set_getD_self, set_getD_self]

theorem setCell_zero_of_cell_zero (b : Grid) (i j : Nat)
    (h : cell b i j = 0) : setCell b i j 0 = b := by
  rw [← h]; exact setCell_cell_self b i j

theorem length_setCell (b : Grid) (i j : Nat) (v : Int) :
    (setCell b i j v).length = b.length := by
  unfold setCell; exact List.length_set b i _

theorem row_length_of_WF {n : Nat} {b : Grid} (hwf : WF n b) {i : Nat}
    (hi : i < n) : (b.getD i []).length = n := by
  have hlen : i < b.length := by rw [hwf.1]; exact hi
  have : b.getD i [] = b[i] := by
    simp [List.getD_eq_getElem?_getD, List.getElem?_eq_getElem hlen]
  rw [this]
  exact hwf.2 _ (List.getElem_mem hlen)

theorem WF_setCell {n : Nat} {b : Grid} (hwf : WF n b) (i j : Nat) (v : Int) :
    WF n (setCell b i j v) := by
  constructor
  · rw [length_setCell, hwf.1]
  · intro row hrow
    by_cases hi : i < n
    · unfold setCell at hrow
      rcases List.mem_or_eq_of_mem_set hrow with h | h
      · exact hwf.2 _ h
      · subst h
        rw [List.length_set]
        exact row_length_of_WF hwf hi
    · rw [setCell_oob j v (by rw [hwf.1]; exact Nat.le_of_not_lt hi)] at hrow
      exact hwf.2 _ hrow

theorem cell_setCell_eq_of_WF {n : Nat} {b : Grid} (hwf : WF n b)
    {i j : Nat} (hi : i < n) (hj : j < n) (v : Int) :
    cell (setCell b i j v) i j = v :=
  cell_setCell_self b i j v (by rw [hwf.1]; exact hi)
    (by rw [row_length_of_WF hwf hi]; exact hj)

/-! ## Row-major scan order -/

theorem mem_rowMajor {n : Nat} {p : Nat × Nat} :
    p ∈ rowMajor n ↔ p.1 < n ∧ p.2 < n := by
  unfold rowMajor
  simp only [List.mem_flatMap, List.mem_map, List.mem_range]
  constructor
  · rintro ⟨i, hi, j, hj, rfl⟩; exact ⟨hi, hj⟩
  · rintro ⟨h1, h2⟩; exact ⟨p.1, h1, p.2, h2, rfl⟩

/-- The row-major scan enumerates cells in strictly increasing lexicographic
order. -/
theorem pairwise_rowMajor (n : Nat) :
    List.Pairwise
      (fun p q : Nat × Nat => p.1 < q.1 ∨ (p.1 = q.1 ∧ p.2 < q.2))
      (rowMajor n) := by
  unfold rowMajor
  have key : ∀ l : List Nat, l.Pairwise (· < ·) →
      List.Pairwise
        (fun p q : Nat × Nat => p.1 < q.1 ∨ (p.1 = q.1 ∧ p.2 < q.2))
        (l.flatMap fun i => (List.range n).map fun j => (i, j)) := by
    intro l hl
    induction l with
    | nil => simp
    | cons i l ih =>
      rw [List.flatMap_cons, List.pairwise_append]
      refine ⟨?_, ih hl.of_cons, ?_⟩
      · rw [List.pairwise_map]
        exact (List.pairwise_lt_range n).imp fun h => Or.inr ⟨rfl, h⟩
      · intro p hp q hq
        rcases List.mem_map.mp hp with ⟨j, _, rfl⟩
        rcases List.mem_flatMap.mp hq with ⟨i', hi', hq'⟩
        rcases List.mem_map.mp hq' with ⟨j', _, rfl⟩
        exact Or.inl (List.rel_of_pairwise_cons hl hi')
  exact key _ (List.pairwise_lt_range n)

theorem nodup_rowMajor (n : Nat) : (rowMajor n).Nodup := by
  refine (pairwise_rowMajor n).imp fun h => ?_
  rintro rfl
  rcases h with h | ⟨-, h⟩ <;> exact absurd h (lt_irrefl _)

theorem countP_congr_of_agree {α : Type} {p q : α → Bool} :
    ∀ l : List α, (∀ a ∈ l, p a = q a) → l.countP p = l.countP q := by
  intro l h
  exact List.countP_congr fun a ha => by rw [h a ha]

/-- Filling an empty in-range cell strictly decreases the number of empty
cells of a well-formed board. -/
theorem emptyCount_setCell_lt {n : Nat} {b : Grid} (hwf : WF n b)
    {i j : Nat} (hi : i < n) (hj : j < n) {v : Int} (hv : v ≠ 0)
    (h0 : cell b i j = 0) :
    emptyCount n (setCell b i j v) < emptyCount n b := by
  have hmem : (i, j) ∈ rowMajor n := mem_rowMajor.mpr ⟨hi, hj⟩
  rcases List.append_of_mem hmem with ⟨d1, d2, hsplit⟩
  have hnd := nodup_rowMajor n
  rw [hsplit] at hnd
  rw [List.nodup_append] at hnd
  have hnotd1 : (i, j) ∉ d1 := fun h => hnd.2.2 h (List.mem_cons_self _ _)
  have hnotd2 : (i, j) ∉ d2 := fun h => (List.nodup_cons.mp hnd.2.1).1 h
  unfold emptyCount
  rw [hsplit, List.countP_append, List.countP_append, List.countP_cons,
    List.countP_cons]
  have hagree : ∀ d : List (Nat × Nat), (i, j) ∉ d →
      (d.countP fun p => cell (setCell b i j v) p.1 p.2 == 0) =
        d.countP fun p => cell b p.1 p.2 == 0 := by
    intro d hd
    refine countP_congr_of_agree d fun p hp => ?_
    rw [cell_setCell_ne b i j p.1 p.2 v (by
      intro hpe
      exact hd (by
        have : p = (i, j) := by
          cases p; simpa using hpe
        exact this ▸ hp))]
  rw [hagree d1 hnotd1, hagree d2 hnotd2]
  have hnew : cell (setCell b i j v) i j = v := cell_setCell_eq_of_WF hwf hi hj v
  simp only [hnew, h0]
  have : (v == 0) = false := by simpa using hv
  simp [this]

/-! ## Characterisation of the constraint checker -/

theorem box_start_le (s : SudokuSolver) (idx : Nat) : box_start s idx ≤ idx := by
  unfold box_start; exact Nat.div_mul_le_self idx s.subgrid_size

theorem box_start_add_le {s : SudokuSolver}
    (hsq : s.subgrid_size * s.subgrid_size = s.size) {idx : Nat}
    (h : idx < s.size) : box_start s idx + s.subgrid_size ≤ s.size := by
  have hB : 0 < s.subgrid_size := by
    rcases Nat.eq_zero_or_pos s.subgrid_size with h0 | h0
    · rw [h0] at hsq; simp at hsq; omega
    · exact h0
  have hdiv : idx / s.subgrid_size < s.subgrid_size := by
    rw [Nat.div_lt_iff_lt_mul hB]
    rw [hsq]; exact h
  calc box_start s idx + s.subgrid_size
      = (idx / s.subgrid_size + 1) * s.subgrid_size := by
        unfold box_start; ring
    _ ≤ s.subgrid_size * s.subgrid_size :=
        Nat.mul_le_mul_right _ hdiv
    _ = s.size := hsq

theorem mem_box_iff {s : SudokuSolver} (hB : 0 < s.subgrid_size)
    (r i : Nat) :
    (box_start s r ≤ i ∧ i < box_start s r + s.subgrid_size) ↔
      i / s.subgrid_size = r / s.subgrid_size := by
  constructor
  · rintro ⟨h1, h2⟩
    unfold box_start at h1 h2
    have hd : i = s.subgrid_size * (r / s.subgrid_size) +
        (i - r / s.subgrid_size * s.subgrid_size) := by
      rw [Nat.mul_comm]; exact (Nat.add_sub_cancel' h1).symm
    have hdB : i - r / s.subgrid_size * s.subgrid_size < s.subgrid_size := by
      rw [Nat.sub_lt_iff_lt_add h1]
      exact h2
    conv_lhs => rw [hd]
    rw [Nat.mul_add_div hB, Nat.div_eq_of_lt hdB, Nat.add_zero]
  · intro h
    unfold box_start
    rw [← h]
    refine ⟨Nat.div_mul_le_self i s.subgrid_size, ?_⟩
    calc i = s.subgrid_size * (i / s.subgrid_size) + i % s.subgrid_size :=
        (Nat.div_add_mod i s.subgrid_size).symm
      _ < s.subgrid_size * (i / s.subgrid_size) + s.subgrid_size :=
        Nat.add_lt_add_left (Nat.mod_lt i hB) _
      _ = i / s.subgrid_size * s.subgrid_size + s.subgrid_size := by ring_nf

theorem all_congr_of_agree {α : Type} {p q : α → Bool} :
    ∀ l : List α, (∀ a ∈ l, p a = q a) → l.all p = l.all q := by
  intro l
  induction l with
  | nil => intro; rfl
  | cons x xs ih =>
    intro h
    have hx := h x (List.mem_cons_self _ _)
    have ht := ih fun a ha => h a (List.mem_cons.mpr (Or.inr ha))
    simp only [List.all_cons, hx, ht]

/-- Blanking or overwriting the *target* cell does not change `is_valid`
there: all three scans of the source exclude the target position. -/
theorem is_valid_setCell_target (s : SudokuSolver) (b : Grid)
    (row col : Nat) (v num : Int) :
    is_valid s (setCell b row col v) row col num = is_valid s b row col num := by
  unfold is_valid
  have hrow : ∀ j ∈ List.range s.size,
      (!(cell (setCell b row col v) row j == num && j != col)) =
        (!(cell b row j == num && j != col)) := by
    intro j _
    by_cases hj : j = col
    · subst hj; simp
    · rw [cell_setCell_ne b row col row j v (by simp [hj])]
  have hcol : ∀ i ∈ List.range s.size,
      (!(cell (setCell b row col v) i col == num && i != row)) =
        (!(cell b i col == num && i != row)) := by
    intro i _
    by_cases hi : i = row
    · subst hi; simp
    · rw [cell_setCell_ne b row col i col v (by simp [hi])]
  have hbox : ∀ di ∈ List.range s.subgrid_size,
      ((List.range s.subgrid_size).all fun dj =>
        !(cell (setCell b row col v) (box_start s row + di) (box_start s col + dj) == num &&
          !(box_start s row + di == row && box_start s col + dj == col))) =
      ((List.range s.subgrid_size).all fun dj =>
        !(cell b (box_start s row + di) (box_start s col + dj) == num &&
          !(box_start s row + di == row && box_start s col + dj == col))) := by
    intro di _
    refine all_congr_of_agree _ fun dj _ => ?_
    by_cases hij : box_start s row + di = row ∧ box_start s col + dj = col
    · rcases hij with ⟨h1, h2⟩
      rw [h1, h2]; simp
    · rw [cell_setCell_ne b row col _ _ v (by
        intro hpe
        exact hij ⟨congrArg Prod.fst hpe, congrArg Prod.snd hpe⟩)]
  rw [all_congr_of_agree _ hrow, all_congr_of_agree _ hcol,
    all_congr_of_agree _ hbox]

/-- Propositional reading of the three scanning loops of `is_valid`. -/
theorem is_valid_eq_true_prop (s : SudokuSolver) (b : Grid) (row col : Nat)
    (num : Int) :
    is_valid s b row col num = true ↔
      (∀ j, j < s.size → ¬(cell b row j = num ∧ j ≠ col)) ∧
      (∀ i, i < s.size → ¬(cell b i col = num ∧ i ≠ row)) ∧
      (∀ di, di < s.subgrid_size → ∀ dj, dj < s.subgrid_size →
        ¬(cell b (box_start s row + di) (box_start s col + dj) = num ∧
          ¬(box_start s row + di = row ∧ box_start s col + dj = col))) := by
  unfold is_valid
  simp [List.all_eq_true, not_and, Decidable.imp_iff_not_or]
  tauto

/-- The constraint checker rejects `num` at `(row, col)` exactly when `num`
already occurs at a different in-range cell of the same row, column or box. -/
theorem is_valid_eq_false_char (s : SudokuSolver) (b : Grid) (row col : Nat)
    (num : Int) (hsq : s.subgrid_size * s.subgrid_size = s.size)
    (hrow : row < s.size) (hcol : col < s.size) :
    is_valid s b row col num = false ↔
      ∃ i j, i < s.size ∧ j < s.size ∧ (i, j) ≠ (row, col) ∧ cell b i j = num ∧
        (i = row ∨ j = col ∨
          (i / s.subgrid_size = row / s.subgrid_size ∧
           j / s.subgrid_size = col / s.subgrid_size)) := by
  have hB : 0 < s.subgrid_size := by
    rcases Nat.eq_zero_or_pos s.subgrid_size with h0 | h0
    · rw [h0] at hsq; simp at hsq; omega
    · exact h0
  rw [← Bool.not_eq_true, is_valid_eq_true_prop]
  constructor
  · intro h
    rw [not_and_or, not_and_or] at h
    rcases h with h | h | h
    · push_neg at h
      rcases h with ⟨j, hj, hcell, hne⟩
      exact ⟨row, j, hrow, hj, fun hpq => hne (congrArg Prod.snd hpq), hcell,
        Or.inl rfl⟩
    · push_neg at h
      rcases h with ⟨i, hi, hcell, hne⟩
      exact ⟨i, col, hi, hcol, fun hpq => hne (congrArg Prod.fst hpq), hcell,
        Or.inr (Or.inl rfl)⟩
    · push_neg at h
      rcases h with ⟨di, hdi, dj, hdj, hcell, hne⟩
      refine ⟨box_start s row + di, box_start s col + dj, ?_, ?_, ?_, hcell, ?_⟩
      · have := box_start_add_le hsq hrow
        omega
      · have := box_start_add_le hsq hcol
        omega
      · intro hpq
        exact hne (congrArg Prod.fst hpq) (congrArg Prod.snd hpq)
      · refine Or.inr (Or.inr ⟨?_, ?_⟩)
        · exact (mem_box_iff hB row (box_start s row + di)).mp
            ⟨Nat.le_add_right _ _, by omega⟩
        · exact (mem_box_iff hB col (box_start s col + dj)).mp
            ⟨Nat.le_add_right _ _, by omega⟩
  · rintro ⟨i, j, hi, hj, hne, hcell, hunit⟩ hval
    rcases hunit with rfl | rfl | ⟨hbi, hbj⟩
    · exact hval.1 j hj ⟨hcell, fun hj' => hne (by rw [hj'])⟩
    · exact hval.2.1 i hi ⟨hcell, fun hi' => hne (by rw [hi'])⟩
    · have hri : box_start s row ≤ i ∧ i < box_start s row + s.subgrid_size :=
        (mem_box_iff hB row i).mpr hbi
      have hcj : box_start s col ≤ j ∧ j < box_start s col + s.subgrid_size :=
        (mem_box_iff hB col j).mpr hbj
      refine hval.2.2 (i - box_start s row) (by omega)
        (j - box_start s col) (by omega) ⟨?_, ?_⟩
      · have h1 : box_start s row + (i - box_start s row) = i := by omega
        have h2 : box_start s col + (j - box_start s col) = j := by omega
        rw [h1, h2]; exact hcell
      · have h1 : box_start s row + (i - box_start s row) = i := by omega
        have h2 : box_start s col + (j - box_start s col) = j := by omega
        rw [h1, h2]
        rintro ⟨rfl, rfl⟩
        exact hne rfl

/-! ## Candidate lists and the two selectors -/

theorem mem_oneToN {n : Nat} {num : Int} :
    num ∈ oneToN n ↔ 1 ≤ num ∧ num ≤ (n : Int) := by
  unfold oneToN
  rw [List.mem_map]
  constructor
  · rintro ⟨k, hk, rfl⟩
    rw [List.mem_range] at hk
    omega
  · rintro ⟨h1, h2⟩
    refine ⟨(num - 1).toNat, ?_, ?_⟩
    · rw [List.mem_range]; omega
    · omega

theorem sorted_oneToN (n : Nat) : List.Sorted (· < ·) (oneToN n) := by
  unfold oneToN
  rw [List.Sorted, List.pairwise_map]
  exact (List.pairwise_lt_range n).imp fun h => by omega

theorem length_oneToN (n : Nat) : (oneToN n).length = n := by
  unfold oneToN
  rw [List.length_map, List.length_range]

theorem mem_possible_values {s : SudokuSolver} {b : Grid} {i j : Nat}
    {num : Int} :
    num ∈ possible_values s b i j ↔
      1 ≤ num ∧ num ≤ (s.size : Int) ∧ is_valid s b i j num = true := by
  unfold possible_values
  rw [List.mem_filter, mem_oneToN]
  tauto

theorem sorted_possible_values (s : SudokuSolver) (b : Grid) (i j : Nat) :
    List.Sorted (· < ·) (possible_values s b i j) := by
  unfold possible_values
  exact List.Pairwise.filter _ (sorted_oneToN s.size)

theorem possible_values_length_le (s : SudokuSolver) (b : Grid) (i j : Nat) :
    (possible_values s b i j).length ≤ s.size := by
  unfold possible_values
  calc ((oneToN s.size).filter fun num => is_valid s b i j num).length
      ≤ (oneToN s.size).length := List.length_filter_le _ _
    _ = s.size := length_oneToN s.size

theorem find_empty_eq_none_iff {s : SudokuSolver} {b : Grid} :
    find_empty s b = none ↔ ∀ p ∈ rowMajor s.size, cell b p.1 p.2 ≠ 0 := by
  unfold find_empty
  rw [List.find?_eq_none]
  constructor
  · intro h p hp hc
    exact h p hp (by simpa using hc)
  · intro h p hp hc
    exact h p hp (by simpa using hc)

theorem find_empty_eq_some {s : SudokuSolver} {b : Grid} {i j : Nat}
    (h : find_empty s b = some (i, j)) :
    (i, j) ∈ rowMajor s.size ∧ cell b i j = 0 := by
  unfold find_empty at h
  refine ⟨List.mem_of_find?_eq_some h, ?_⟩
  have := List.find?_some h
  simpa using this

/-- Structural invariant carried by the result of `findBestAux`: any `some`
result names an in-range empty cell together with its candidate list. -/
theorem findBestAux_some_inv (s : SudokuSolver) (b : Grid) :
    ∀ (rest : List (Nat × Nat)) (best : Option (Nat × Nat × List Int))
      (minOpt : Nat),
      (∀ p ∈ rest, p ∈ rowMajor s.size) →
      (∀ i j poss, best = some (i, j, poss) →
        (i, j) ∈ rowMajor s.size ∧ cell b i j = 0 ∧
          poss = possible_values s b i j) →
      ∀ i j poss, findBestAux s b rest best minOpt = some (i, j, poss) →
        (i, j) ∈ rowMajor s.size ∧ cell b i j = 0 ∧
          poss = possible_values s b i j := by
  intro rest
  induction rest with
  | nil => intro best minOpt _ hbest i j poss h; exact hbest i j poss h
  | cons p rest ih =>
    intro best minOpt hmem hbest i j poss h
    obtain ⟨pi, pj⟩ := p
    rw [findBestAux] at h
    by_cases hc : cell b pi pj == 0
    · rw [if_pos hc] at h
      by_cases hlen : (possible_values s b pi pj).length < minOpt
      · rw [if_pos hlen] at h
        by_cases hone : (possible_values s b pi pj).length == 1
        · rw [if_pos hone] at h
          injection h with h
          obtain ⟨rfl, rfl, rfl⟩ : pi = i ∧ pj = j ∧
              possible_values s b pi pj = poss := by
            have h1 := congrArg (fun t => t.1) h
            have h2 := congrArg (fun t => t.2.1) h
            have h3 := congrArg (fun t => t.2.2) h
            exact ⟨h1, h2, h3⟩
          exact ⟨hmem _ (List.mem_cons_self _ _), by simpa using hc, rfl⟩
        · rw [if_neg hone] at h
          refine ih _ _ (fun q hq => hmem q (List.mem_cons.mpr (Or.inr hq)))
            ?_ i j poss h
          intro i' j' poss' h'
          injection h' with h'
          obtain ⟨rfl, rfl, rfl⟩ : pi = i' ∧ pj = j' ∧
              possible_values s b pi pj = poss' := by
            have h1 := congrArg (fun t => t.1) h'
            have h2 := congrArg (fun t => t.2.1) h'
            have h3 := congrArg (fun t => t.2.2) h'
            exact ⟨h1, h2, h3⟩
          exact ⟨hmem _ (List.mem_cons_self _ _), by simpa using hc, rfl⟩
      · rw [if_neg hlen] at h
        exact ih _ _ (fun q hq => hmem q (List.mem_cons.mpr (Or.inr hq)))
          hbest i j poss h
    · rw [if_neg hc] at h
      exact ih _ _ (fun q hq => hmem q (List.mem_cons.mpr (Or.inr hq)))
        hbest i j poss h

theorem findBestAux_ne_none (s : SudokuSolver) (b : Grid) :
    ∀ (rest : List (Nat × Nat)) (x : Nat × Nat × List Int) (minOpt : Nat),
      findBestAux s b rest (some x) minOpt ≠ none := by
  intro rest
  induction rest with
  | nil => intro x minOpt h; rw [findBestAux] at h; exact Option.noConfusion h
  | cons p rest ih =>
    intro x minOpt h
    obtain ⟨pi, pj⟩ := p
    rw [findBestAux] at h
    by_cases hc : cell b pi pj == 0
    · rw [if_pos hc] at h
      by_cases hlen : (possible_values s b pi pj).length < minOpt
      · rw [if_pos hlen] at h
        by_cases hone : (possible_values s b pi pj).length == 1
        · rw [if_pos hone] at h; exact Option.noConfusion h
        · rw [if_neg hone] at h; exact ih _ _ h
      · rw [if_neg hlen] at h; exact ih _ _ h
    · rw [if_neg hc] at h; exact ih _ _ h

theorem findBestAux_eq_none_iff (s : SudokuSolver) (b : Grid) :
    ∀ (rest : List (Nat × Nat)) (best : Option (Nat × Nat × List Int))
      (minOpt : Nat), (best = none → minOpt = s.size + 1) →
      (findBestAux s b rest best minOpt = none ↔
        best = none ∧ ∀ p ∈ rest, cell b p.1 p.2 ≠ 0) := by
  intro rest
  induction rest with
  | nil =>
    intro best minOpt _
    rw [findBestAux]
    simp
  | cons p rest ih =>
    intro best minOpt hside
    obtain ⟨pi, pj⟩ := p
    rw [findBestAux]
    by_cases hc : cell b pi pj == 0
    · rw [if_pos hc]
      have hcz : cell b pi pj = 0 := by simpa using hc
      have hrhsF : ¬∀ p ∈ (pi, pj) :: rest, cell b p.1 p.2 ≠ 0 := by
        intro hall
        exact hall (pi, pj) (List.mem_cons_self _ _) hcz
      cases best with
      | none =>
        have hmin : minOpt = s.size + 1 := hside rfl
        have hlen : (possible_values s b pi pj).length < minOpt := by
          rw [hmin]
          exact Nat.lt_succ_of_le (possible_values_length_le s b pi pj)
        rw [if_pos hlen]
        by_cases hone : (possible_values s b pi pj).length == 1
        · rw [if_pos hone]
          constructor
          · intro h; exact absurd h (by simp)
          · rintro ⟨-, hall⟩; exact absurd hall hrhsF
        · rw [if_neg hone]
          constructor
          · intro h; exact absurd h (findBestAux_ne_none s b rest _ _)
          · rintro ⟨-, hall⟩; exact absurd hall hrhsF
      | some x =>
        constructor
        · intro h
          exfalso
          by_cases hlen : (possible_values s b pi pj).length < minOpt
          · rw [if_pos hlen] at h
            by_cases hone : (possible_values s b pi pj).length == 1
            · rw [if_pos hone] at h; exact Option.noConfusion h
            · rw [if_neg hone] at h; exact findBestAux_ne_none s b rest _ _ h
          · rw [if_neg hlen] at h; exact findBestAux_ne_none s b rest _ _ h
        · rintro ⟨h, -⟩; exact Option.noConfusion h
    · rw [if_neg hc]
      rw [ih best minOpt hside]
      constructor
      · rintro ⟨h1, h2⟩
        refine ⟨h1, ?_⟩
        intro q hq
        rcases List.mem_cons.mp hq with rfl | hq'
        · simpa using hc
        · exact h2 q hq'
      · rintro ⟨h1, h2⟩
        exact ⟨h1, fun q hq => h2 q (List.mem_cons.mpr (Or.inr hq))⟩

/-- `find_best_empty` returns `none` exactly on boards with no empty cell in
the scan window. -/
theorem find_best_empty_eq_none_iff {s : SudokuSolver} {b : Grid} :
    find_best_empty s b = none ↔ ∀ p ∈ rowMajor s.size, cell b p.1 p.2 ≠ 0 := by
  unfold find_best_empty
  rw [findBestAux_eq_none_iff s b (rowMajor s.size) none (s.size + 1)
    (fun _ => rfl)]
  simp

/-- Any cell selected by `find_best_empty` is an in-range empty cell carrying
exactly its candidate list. -/
theorem find_best_empty_some {s : SudokuSolver} {b : Grid} {i j : Nat}
    {poss : List Int} (h : find_best_empty s b = some (i, j, poss)) :
    (i, j) ∈ rowMajor s.size ∧ cell b i j = 0 ∧
      poss = possible_values s b i j := by
  unfold find_best_empty at h
  exact findBestAux_some_inv s b (rowMajor s.size) none (s.size + 1)
    (fun p hp => hp) (fun i' j' poss' h' => Option.noConfusion h') i j poss h

/-! ## Backtracking restores the board on every failing return -/

/-- If the recursive solver restores the board whenever it fails, the whole
candidate loop does too: each failed try is undone by the `board[row][col] = 0`
reset, and the loop entered the cell empty. -/
theorem tryNums_false_board (solveF : SState → Bool × SState)
    (s : SudokuSolver) (i j : Nat)
    (hS : ∀ st, (solveF st).1 = false → (solveF st).2.board = st.board) :
    ∀ (nums : List Int) (st : SState), cell st.board i j = 0 →
      (tryNums solveF s i j nums st).1 = false →
      (tryNums solveF s i j nums st).2.board = st.board := by
  intro nums
  induction nums with
  | nil => intro st h0 _; rw [tryNums]
  | cons num rest ih =>
    intro st h0 hres
    rw [tryNums] at hres ⊢
    dsimp only at hres ⊢
    by_cases hv : is_valid s st.board i j num
    · rw [if_pos hv] at hres ⊢
      generalize hr : solveF { st with board := setCell st.board i j num } = r
        at hres ⊢
      by_cases hr1 : r.1
      · rw [if_pos hr1] at hres
        rw [hr1] at hres
        exact absurd hres (by simp)
      · rw [if_neg hr1] at hres ⊢
        have hboard : r.2.board = setCell st.board i j num := by
          have h1 := hS { st with board := setCell st.board i j num }
          rw [hr] at h1
          exact h1 (by simpa using hr1)
        have hstate : setCell r.2.board i j 0 = st.board := by
          rw [hboard, setCell_setCell, setCell_zero_of_cell_zero _ _ _ h0]
        have h0' : cell ({ r.2 with board := setCell r.2.board i j 0 } :
            SState).board i j = 0 := by
          show cell (setCell r.2.board i j 0) i j = 0
          rw [hstate]; exact h0
        have h2 := ih _ h0' hres
        rw [h2]
        exact hstate
    · rw [if_neg hv] at hres ⊢
      exact ih st h0 hres

/-- `solve_with_mrv` leaves the board exactly as it found it whenever it
returns `False` — on exhausted candidates, on timeout and on fuel exhaustion
alike, because every tentative assignment is paired with an undo. -/
theorem solve_with_mrv_false_board (tmo : Nat → Bool) (s : SudokuSolver) :
    ∀ (fuel : Nat) (st : SState),
      (solve_with_mrv tmo s fuel st).1 = false →
      (solve_with_mrv tmo s fuel st).2.board = st.board := by
  intro fuel
  induction fuel with
  | zero => intro st _; rw [solve_with_mrv]
  | succ fuel ih =>
    intro st hres
    rw [solve_with_mrv] at hres ⊢
    by_cases ht : tmo st.clock
    · rw [if_pos ht] at hres ⊢
    · rw [if_neg ht] at hres ⊢
      dsimp only at hres ⊢
      cases hfind : find_best_empty s st.board with
      | none =>
        rfl
      | some x =>
        obtain ⟨i, j, poss⟩ := x
        rw [hfind] at hres
        dsimp only at hres ⊢
        have h0 : cell st.board i j = 0 := (find_best_empty_some hfind).2.1
        exact tryNums_false_board _ s i j ih poss _ h0 hres

/-- `solve_simple` has the same unconditional rollback property. -/
theorem solve_simple_false_board (tmo : Nat → Bool) (s : SudokuSolver) :
    ∀ (fuel : Nat) (st : SState),
      (solve_simple tmo s fuel st).1 = false →
      (solve_simple tmo s fuel st).2.board = st.board := by
  intro fuel
  induction fuel with
  | zero => intro st _; rw [solve_simple]
  | succ fuel ih =>
    intro st hres
    rw [solve_simple] at hres ⊢
    by_cases ht : tmo st.clock
    · rw [if_pos ht] at hres ⊢
    · rw [if_neg ht] at hres ⊢
      dsimp only at hres ⊢
      cases hfind : find_empty s st.board with
      | none =>
        rfl
      | some x =>
        obtain ⟨i, j⟩ := x
        rw [hfind] at hres
        dsimp only at hres ⊢
        have h0 : cell st.board i j = 0 := (find_empty_eq_some hfind).2
        exact tryNums_false_board _ s i j ih (oneToN s.size) _ h0 hres

/-! ## Preservation of the board invariants under a checked placement -/

theorem Extends_refl (n : Nat) (b : Grid) : Extends n b b :=
  fun _ _ _ => rfl

theorem Extends_trans {n : Nat} {a b c : Grid} (h1 : Extends n a b)
    (h2 : Extends n b c) : Extends n a c := by
  intro p hp hne
  rw [h2 p hp, h1 p hp hne]
  rw [h1 p hp hne]
  exact hne

theorem Extends_setCell_of_empty {n : Nat} {b : Grid} {i j : Nat} (v : Int)
    (h0 : cell b i j = 0) : Extends n b (setCell b i j v) := by
  intro p hp hne
  refine cell_setCell_ne b i j p.1 p.2 v ?_
  intro hpe
  apply hne
  have : p = (i, j) := by cases p; simpa using hpe
  rw [this]
  exact h0

theorem InRange_setCell {s : SudokuSolver} {b : Grid} (hwf : WF s.size b)
    (hin : InRange s b) {i j : Nat} (hmem : (i, j) ∈ rowMajor s.size)
    {v : Int} (h0 : 0 ≤ v) (hN : v ≤ (s.size : Int)) :
    InRange s (setCell b i j v) := by
  intro p hp
  by_cases hpe : p = (i, j)
  · subst hpe
    rcases mem_rowMajor.mp hmem with ⟨hi, hj⟩
    rw [cell_setCell_eq_of_WF hwf hi hj v]
    exact ⟨h0, hN⟩
  · rw [cell_setCell_ne b i j p.1 p.2 v (by
      intro h
      exact hpe (by cases p; simpa using h))]
    exact hin p hp

/-- A placement that passes `is_valid` preserves the no-conflict invariant. -/
theorem Good_setCell {s : SudokuSolver} {b : Grid}
    (hsq : s.subgrid_size * s.subgrid_size = s.size) (hwf : WF s.size b)
    (hgood : Good s b) {i j : Nat} (hmem : (i, j) ∈ rowMajor s.size)
    (h0 : cell b i j = 0) {v : Int} (hval : is_valid s b i j v = true) :
    Good s (setCell b i j v) := by
  rcases mem_rowMajor.mp hmem with ⟨hi, hj⟩
  intro p hp hpne
  obtain ⟨pi, pj⟩ := p
  rcases mem_rowMajor.mp hp with ⟨hpi, hpj⟩
  by_contra hbad
  rw [Bool.not_eq_true] at hbad
  rw [is_valid_eq_false_char s _ pi pj _ hsq hpi hpj] at hbad
  rcases hbad with ⟨qi, qj, hqi, hqj, hqne, hqcell, hqunit⟩
  by_cases hpij : (pi, pj) = (i, j)
  · -- the freshly assigned cell conflicts with an old cell: impossible
    obtain ⟨rfl, rfl⟩ : pi = i ∧ pj = j :=
      ⟨congrArg Prod.fst hpij, congrArg Prod.snd hpij⟩
    have hv : cell (setCell b pi pj v) pi pj = v :=
      cell_setCell_eq_of_WF hwf hpi hpj v
    have hq : cell b qi qj = v := by
      rw [← cell_setCell_ne b pi pj qi qj v hqne, hqcell, hv]
    have : is_valid s b pi pj v = false := by
      rw [is_valid_eq_false_char s b pi pj v hsq hpi hpj]
      exact ⟨qi, qj, hqi, hqj, hqne, hq, hqunit⟩
    rw [this] at hval
    exact Bool.noConfusion hval
  · have hpcell : cell (setCell b i j v) pi pj = cell b pi pj :=
      cell_setCell_ne b i j pi pj v hpij
    by_cases hqij : (qi, qj) = (i, j)
    · -- an old cell conflicts with the freshly assigned cell: impossible
      obtain ⟨rfl, rfl⟩ : qi = i ∧ qj = j :=
        ⟨congrArg Prod.fst hqij, congrArg Prod.snd hqij⟩
      have hv : cell (setCell b qi qj v) qi qj = v :=
        cell_setCell_eq_of_WF hwf hqi hqj v
      have hpv : cell b pi pj = v := by
        rw [← hpcell, ← hqcell, hv]
      have : is_valid s b qi qj v = false := by
        rw [is_valid_eq_false_char s b qi qj v hsq hqi hqj]
        refine ⟨pi, pj, hpi, hpj, ?_, hpv, ?_⟩
        · intro h; exact hpij h
        · rcases hqunit with h | h | ⟨h1, h2⟩
          · exact Or.inl h.symm
          · exact Or.inr (Or.inl h.symm)
          · exact Or.inr (Or.inr ⟨h1.symm, h2.symm⟩)
      rw [this] at hval
      exact Bool.noConfusion hval
    · -- two old cells conflict: contradicts `Good b`
      have hqcell' : cell b qi qj = cell b pi pj := by
        rw [← cell_setCell_ne b i j qi qj v hqij, hqcell, hpcell]
      have hpb : cell b pi pj ≠ 0 := by
        rw [← hpcell]; exact hpne
      have : is_valid s b pi pj (cell b pi pj) = false := by
        rw [is_valid_eq_false_char s b pi pj _ hsq hpi hpj]
        exact ⟨qi, qj, hqi, hqj, hqne, hqcell', hqunit⟩
      have hgood' := hgood (pi, pj) hp hpb
      rw [this] at hgood'
      exact Bool.noConfusion hgood'

/-! ## Soundness: a `True` return delivers a complete, conflict-free board -/

theorem tryNums_sound (solveF : SState → Bool × SState) (s : SudokuSolver)
    (i j : Nat) (hsq : s.subgrid_size * s.subgrid_size = s.size)
    (hmem : (i, j) ∈ rowMajor s.size)
    (hS : ∀ st, WF s.size st.board → InRange s st.board → Good s st.board →
      (solveF st).1 = true →
      WF s.size (solveF st).2.board ∧ InRange s (solveF st).2.board ∧
        Good s (solveF st).2.board ∧ Complete s.size (solveF st).2.board ∧
        Extends s.size st.board (solveF st).2.board)
    (hR : ∀ st, (solveF st).1 = false → (solveF st).2.board = st.board) :
    ∀ (nums : List Int) (st : SState),
      (∀ num ∈ nums, 1 ≤ num ∧ num ≤ (s.size : Int)) →
      WF s.size st.board → InRange s st.board → Good s st.board →
      cell st.board i j = 0 →
      (tryNums solveF s i j nums st).1 = true →
      WF s.size (tryNums solveF s i j nums st).2.board ∧
        InRange s (tryNums solveF s i j nums st).2.board ∧
        Good s (tryNums solveF s i j nums st).2.board ∧
        Complete s.size (tryNums solveF s i j nums st).2.board ∧
        Extends s.size st.board (tryNums solveF s i j nums st).2.board := by
  intro nums
  induction nums with
  | nil =>
    intro st _ _ _ _ _ hres
    rw [tryNums] at hres
    exact absurd hres (by simp)
  | cons num rest ih =>
    intro st hbound hwf hin hgood h0 hres
    rw [tryNums] at hres ⊢
    dsimp only at hres ⊢
    by_cases hv : is_valid s st.board i j num
    · rw [if_pos hv] at hres ⊢
      generalize hr : solveF { st with board := setCell st.board i j num } = r
        at hres ⊢
      have hnum := hbound num (List.mem_cons_self _ _)
      have hwf2 : WF s.size (setCell st.board i j num) := WF_setCell hwf i j num
      have hin2 : InRange s (setCell st.board i j num) :=
        InRange_setCell hwf hin hmem (by omega) hnum.2
      have hgood2 : Good s (setCell st.board i j num) :=
        Good_setCell hsq hwf hgood hmem h0 hv
      by_cases hr1 : r.1
      · rw [if_pos hr1] at hres ⊢
        have hpack := hS { st with board := setCell st.board i j num }
          hwf2 hin2 hgood2 (by rw [hr]; exact hr1)
        rw [hr] at hpack
        refine ⟨hpack.1, hpack.2.1, hpack.2.2.1, hpack.2.2.2.1, ?_⟩
        exact Extends_trans (Extends_setCell_of_empty num h0) hpack.2.2.2.2
      · rw [if_neg hr1] at hres ⊢
        have hboard : r.2.board = setCell st.board i j num := by
          have h1 := hR { st with board := setCell st.board i j num }
          rw [hr] at h1
          exact h1 (by simpa using hr1)
        have hstate : setCell r.2.board i j 0 = st.board := by
          rw [hboard, setCell_setCell, setCell_zero_of_cell_zero _ _ _ h0]
        have hb' : ({ r.2 with board := setCell r.2.board i j 0 } :
            SState).board = st.board := hstate
        have := ih { r.2 with board := setCell r.2.board i j 0 }
          (fun q hq => hbound q (List.mem_cons.mpr (Or.inr hq)))
          (by rw [hb']; exact hwf) (by rw [hb']; exact hin)
          (by rw [hb']; exact hgood) (by rw [hb']; exact h0) hres
        rw [hb'] at this
        exact this
    · rw [if_neg hv] at hres ⊢
      exact ih st (fun q hq => hbound q (List.mem_cons.mpr (Or.inr hq)))
        hwf hin hgood h0 hres

theorem solve_with_mrv_sound (tmo : Nat → Bool) (s : SudokuSolver)
    (hsq : s.subgrid_size * s.subgrid_size = s.size) :
    ∀ (fuel : Nat) (st : SState),
      WF s.size st.board → InRange s st.board → Good s st.board →
      (solve_with_mrv tmo s fuel st).1 = true →
      WF s.size (solve_with_mrv tmo s fuel st).2.board ∧
        InRange s (solve_with_mrv tmo s fuel st).2.board ∧
        Good s (solve_with_mrv tmo s fuel st).2.board ∧
        Complete s.size (solve_with_mrv tmo s fuel st).2.board ∧
        Extends s.size st.board (solve_with_mrv tmo s fuel st).2.board := by
  intro fuel
  induction fuel with
  | zero =>
    intro st _ _ _ hres
    rw [solve_with_mrv] at hres
    exact absurd hres (by simp)
  | succ fuel ih =>
    intro st hwf hin hgood hres
    rw [solve_with_mrv] at hres ⊢
    by_cases ht : tmo st.clock
    · rw [if_pos ht] at hres
      exact absurd hres (by simp)
    · rw [if_neg ht] at hres ⊢
      dsimp only at hres ⊢
      cases hfind : find_best_empty s st.board with
      | none =>
        refine ⟨hwf, hin, hgood, ?_, Extends_refl _ _⟩
        intro p hp
        exact find_best_empty_eq_none_iff.mp hfind p hp
      | some x =>
        obtain ⟨i, j, poss⟩ := x
        rw [hfind] at hres
        dsimp only at hres ⊢
        obtain ⟨hmem, h0, hposs⟩ := find_best_empty_some hfind
        refine tryNums_sound (solve_with_mrv tmo s fuel) s i j hsq hmem ih
          (solve_with_mrv_false_board tmo s fuel) poss _ ?_ hwf hin hgood h0 hres
        intro q hq
        rw [hposs] at hq
        have := mem_possible_values.mp hq
        exact ⟨this.1, this.2.1⟩

theorem solve_simple_sound (tmo : Nat → Bool) (s : SudokuSolver)
    (hsq : s.subgrid_size * s.subgrid_size = s.size) :
    ∀ (fuel : Nat) (st : SState),
      WF s.size st.board → InRange s st.board → Good s st.board →
      (solve_simple tmo s fuel st).1 = true →
      WF s.size (solve_simple tmo s fuel st).2.board ∧
        InRange s (solve_simple tmo s fuel st).2.board ∧
        Good s (solve_simple tmo s fuel st).2.board ∧
        Complete s.size (solve_simple tmo s fuel st).2.board ∧
        Extends s.size st.board (solve_simple tmo s fuel st).2.board := by
  intro fuel
  induction fuel with
  | zero =>
    intro st _ _ _ hres
    rw [solve_simple] at hres
    exact absurd hres (by simp)
  | succ fuel ih =>
    intro st hwf hin hgood hres
    rw [solve_simple] at hres ⊢
    by_cases ht : tmo st.clock
    · rw [if_pos ht] at hres
      exact absurd hres (by simp)
    · rw [if_neg ht] at hres ⊢
      dsimp only at hres ⊢
      cases hfind : find_empty s st.board with
      | none =>
        refine ⟨hwf, hin, hgood, ?_, Extends_refl _ _⟩
        intro p hp
        exact find_empty_eq_none_iff.mp hfind p hp
      | some x =>
        obtain ⟨i, j⟩ := x
        rw [hfind] at hres
        dsimp only at hres ⊢
        obtain ⟨hmem, h0⟩ := find_empty_eq_some hfind
        refine tryNums_sound (solve_simple tmo s fuel) s i j hsq hmem ih
          (solve_simple_false_board tmo s fuel) (oneToN s.size) _ ?_
          hwf hin hgood h0 hres
        intro q hq
        exact mem_oneToN.mp hq

/-! ## Completeness: a solvable board is solved -/

/-- The value a solution places in an empty cell is a legal candidate. -/
theorem sol_is_valid {s : SudokuSolver}
    (hsq : s.subgrid_size * s.subgrid_size = s.size) {b sol : Grid}
    (hsol : Solution s b sol) {i j : Nat} (hmem : (i, j) ∈ rowMajor s.size)
    (h0 : cell b i j = 0) : is_valid s b i j (cell sol i j) = true := by
  obtain ⟨hwfS, hcompS, hinS, hgoodS, hext⟩ := hsol
  rcases mem_rowMajor.mp hmem with ⟨hi, hj⟩
  by_contra hbad
  rw [Bool.not_eq_true, is_valid_eq_false_char s b i j _ hsq hi hj] at hbad
  rcases hbad with ⟨qi, qj, hqi, hqj, hqne, hqcell, hqunit⟩
  have hqmem : (qi, qj) ∈ rowMajor s.size := mem_rowMajor.mpr ⟨hqi, hqj⟩
  have hv1 : 1 ≤ cell sol i j := by
    have h1 := (hinS (i, j) hmem).1
    have h2 := hcompS (i, j) hmem
    dsimp only at h1 h2
    omega
  have hqb : cell b qi qj ≠ 0 := by
    rw [hqcell]; omega
  have hqsol : cell sol qi qj = cell sol i j := by
    rw [hext (qi, qj) hqmem hqb, hqcell]
  have : is_valid s sol qi qj (cell sol qi qj) = false := by
    rw [is_valid_eq_false_char s sol qi qj _ hsq hqi hqj]
    refine ⟨i, j, hi, hj, fun h => hqne h.symm, ?_, ?_⟩
    · rw [hqsol]
    · rcases hqunit with h | h | ⟨h1, h2⟩
      · exact Or.inl h.symm
      · exact Or.inr (Or.inl h.symm)
      · exact Or.inr (Or.inr ⟨h1.symm, h2.symm⟩)
  have hgood' := hgoodS (qi, qj) hqmem (by rw [hqsol]; omega)
  rw [this] at hgood'
  exact Bool.noConfusion hgood'

/-- Writing the solution's own value into an empty cell keeps the solution a
solution of the extended board. -/
theorem Solution_setCell {s : SudokuSolver} {b sol : Grid}
    (hsol : Solution s b sol) (hwf : WF s.size b) {i j : Nat}
    (hmem : (i, j) ∈ rowMajor s.size) :
    Solution s (setCell b i j (cell sol i j)) sol := by
  obtain ⟨hwfS, hcompS, hinS, hgoodS, hext⟩ := hsol
  rcases mem_rowMajor.mp hmem with ⟨hi, hj⟩
  refine ⟨hwfS, hcompS, hinS, hgoodS, ?_⟩
  intro p hp hne
  by_cases hpe : p = (i, j)
  · subst hpe
    rw [cell_setCell_eq_of_WF hwf hi hj _]
  · have hpcell : cell (setCell b i j (cell sol i j)) p.1 p.2 = cell b p.1 p.2 :=
      cell_setCell_ne b i j p.1 p.2 _ (by
        intro h; exact hpe (by cases p; simpa using h))
    rw [hpcell] at hne ⊢
    exact hext p hp hne

theorem tryNums_complete (solveF : SState → Bool × SState) (s : SudokuSolver)
    (i j : Nat) (fuel : Nat)
    (hsq : s.subgrid_size * s.subgrid_size = s.size)
    (hmem : (i, j) ∈ rowMajor s.size)
    (hC : ∀ st, WF s.size st.board → InRange s st.board → Good s st.board →
      (∃ sol, Solution s st.board sol) →
      emptyCount s.size st.board < fuel → (solveF st).1 = true)
    (hR : ∀ st, (solveF st).1 = false → (solveF st).2.board = st.board) :
    ∀ (nums : List Int) (st : SState) (sol : Grid),
      Solution s st.board sol →
      WF s.size st.board → InRange s st.board → Good s st.board →
      cell st.board i j = 0 →
      emptyCount s.size st.board ≤ fuel →
      (∀ num ∈ nums, 1 ≤ num ∧ num ≤ (s.size : Int)) →
      cell sol i j ∈ nums →
      (tryNums solveF s i j nums st).1 = true := by
  intro nums
  induction nums with
  | nil =>
    intro st sol _ _ _ _ _ _ _ hv
    exact absurd hv (List.not_mem_nil _)
  | cons num rest ih =>
    intro st sol hsol hwf hin hgood h0 hfuel hbound hvmem
    rw [tryNums]
    dsimp only
    have hvval : is_valid s st.board i j (cell sol i j) = true :=
      sol_is_valid hsq hsol hmem h0
    rcases mem_rowMajor.mp hmem with ⟨hi, hj⟩
    dsimp only at hi hj
    by_cases hv : is_valid s st.board i j num
    · rw [if_pos hv]
      generalize hr : solveF { st with board := setCell st.board i j num } = r
      by_cases hr1 : r.1
      · rw [if_pos hr1]; exact hr1
      · rw [if_neg hr1]
        have hboard : r.2.board = setCell st.board i j num := by
          have h1 := hR { st with board := setCell st.board i j num }
          rw [hr] at h1
          exact h1 (by simpa using hr1)
        have hstate : setCell r.2.board i j 0 = st.board := by
          rw [hboard, setCell_setCell, setCell_zero_of_cell_zero _ _ _ h0]
        have hb' : ({ r.2 with board := setCell r.2.board i j 0 } :
            SState).board = st.board := hstate
        by_cases hnumv : num = cell sol i j
        · -- the successful candidate cannot fail: contradiction with `hC`
          exfalso
          have hnum := hbound num (List.mem_cons_self _ _)
          have hsolvable : ∃ sol', Solution s (setCell st.board i j num) sol' := by
            refine ⟨sol, ?_⟩
            rw [hnumv]
            exact Solution_setCell hsol hwf hmem
          have hlt : emptyCount s.size (setCell st.board i j num) < fuel := by
            have hdec := emptyCount_setCell_lt hwf hi hj
              (show num ≠ 0 by omega) h0
            omega
          have := hC { st with board := setCell st.board i j num }
            (WF_setCell hwf i j num)
            (InRange_setCell hwf hin hmem (by omega) hnum.2)
            (Good_setCell hsq hwf hgood hmem h0 hv) hsolvable hlt
          rw [hr] at this
          rw [this] at hr1
          exact hr1 rfl
        · have hvrest : cell sol i j ∈ rest := by
            rcases List.mem_cons.mp hvmem with h | h
            · exact absurd h.symm hnumv
            · exact h
          refine ih { r.2 with board := setCell r.2.board i j 0 } sol
            ?_ ?_ ?_ ?_ ?_ ?_
            (fun q hq => hbound q (List.mem_cons.mpr (Or.inr hq))) hvrest
          · rw [show ({ r.2 with board := setCell r.2.board i j 0 } :
              SState).board = st.board from hb']
            exact hsol
          · rw [show ({ r.2 with board := setCell r.2.board i j 0 } :
              SState).board = st.board from hb']
            exact hwf
          · rw [show ({ r.2 with board := setCell r.2.board i j 0 } :
              SState).board = st.board from hb']
            exact hin
          · rw [show ({ r.2 with board := setCell r.2.board i j 0 } :
              SState).board = st.board from hb']
            exact hgood
          · rw [show ({ r.2 with board := setCell r.2.board i j 0 } :
              SState).board = st.board from hb']
            exact h0
          · rw [show ({ r.2 with board := setCell r.2.board i j 0 } :
              SState).board = st.board from hb']
            exact hfuel
    · rw [if_neg hv]
      have hvrest : cell sol i j ∈ rest := by
        rcases List.mem_cons.mp hvmem with h | h
        · rw [h] at hvval
          exact absurd hvval hv
        · exact h
      exact ih st sol hsol hwf hin hgood h0 hfuel
        (fun q hq => hbound q (List.mem_cons.mpr (Or.inr hq))) hvrest

theorem solve_with_mrv_complete (s : SudokuSolver)
    (hsq : s.subgrid_size * s.subgrid_size = s.size) :
    ∀ (fuel : Nat) (st : SState),
      WF s.size st.board → InRange s st.board → Good s st.board →
      (∃ sol, Solution s st.board sol) →
      emptyCount s.size st.board < fuel →
      (solve_with_mrv (fun _ => false) s fuel st).1 = true := by
  intro fuel
  induction fuel with
  | zero => intro st _ _ _ _ hf; omega
  | succ fuel ih =>
    intro st hwf hin hgood hsolv hfuel
    rw [solve_with_mrv]
    rw [if_neg (by simp)]
    dsimp only
    cases hfind : find_best_empty s st.board with
    | none => rfl
    | some x =>
      obtain ⟨i, j, poss⟩ := x
      dsimp only
      obtain ⟨hmem, h0, hposs⟩ := find_best_empty_some hfind
      obtain ⟨sol, hsol⟩ := hsolv
      refine tryNums_complete (solve_with_mrv (fun _ => false) s fuel) s i j fuel
        hsq hmem ih (solve_with_mrv_false_board (fun _ => false) s fuel)
        poss _ sol hsol hwf hin hgood h0 (Nat.le_of_lt_succ hfuel) ?_ ?_
      · intro q hq
        rw [hposs] at hq
        have := mem_possible_values.mp hq
        exact ⟨this.1, this.2.1⟩
      · rw [hposs]
        rw [mem_possible_values]
        have h1 := (hsol.2.2.1 (i, j) hmem).1
        have h2 := (hsol.2.2.1 (i, j) hmem).2
        have h3 := hsol.2.1 (i, j) hmem
        dsimp only at h1 h2 h3
        exact ⟨by omega, h2, sol_is_valid hsq hsol hmem h0⟩

theorem solve_simple_complete (s : SudokuSolver)
    (hsq : s.subgrid_size * s.subgrid_size = s.size) :
    ∀ (fuel : Nat) (st : SState),
      WF s.size st.board → InRange s st.board → Good s st.board →
      (∃ sol, Solution s st.board sol) →
      emptyCount s.size st.board < fuel →
      (solve_simple (fun _ => false) s fuel st).1 = true := by
  intro fuel
  induction fuel with
  | zero => intro st _ _ _ _ hf; omega
  | succ fuel ih =>
    intro st hwf hin hgood hsolv hfuel
    rw [solve_simple]
    rw [if_neg (by simp)]
    dsimp only
    cases hfind : find_empty s st.board with
    | none => rfl
    | some x =>
      obtain ⟨i, j⟩ := x
      dsimp only
      obtain ⟨hmem, h0⟩ := find_empty_eq_some hfind
      obtain ⟨sol, hsol⟩ := hsolv
      refine tryNums_complete (solve_simple (fun _ => false) s fuel) s i j fuel
        hsq hmem ih (solve_simple_false_board (fun _ => false) s fuel)
        (oneToN s.size) _ sol hsol hwf hin hgood h0 (Nat.le_of_lt_succ hfuel) ?_ ?_
      · intro q hq
        exact mem_oneToN.mp hq
      · rw [mem_oneToN]
        have h1 := (hsol.2.2.1 (i, j) hmem).1
        have h2 := (hsol.2.2.1 (i, j) hmem).2
        have h3 := hsol.2.1 (i, j) hmem
        dsimp only at h1 h2 h3
        exact ⟨by omega, h2⟩

/-! ## The validator: frame property and first-violation characterisation -/

/-- The restore step of the temporarily-blanked-cell technique is exact: the
scan leaves the grid unchanged on every path. -/
theorem checkCells_board (s : SudokuSolver) :
    ∀ (pts : List (Nat × Nat)) (b : Grid), (checkCells s pts b).2.2 = b := by
  intro pts
  induction pts with
  | nil => intro b; rfl
  | cons p rest ih =>
    intro b
    obtain ⟨i, j⟩ := p
    rw [checkCells]
    dsimp only
    by_cases h1 : ¬(0 ≤ cell b i j ∧ cell b i j ≤ (s.size : Int))
    · rw [if_pos h1]
    · rw [if_neg h1]
      by_cases h2 : cell b i j ≠ 0
      · rw [if_pos h2]
        have hrestore : setCell (setCell b i j 0) i j (cell b i j) = b := by
          rw [setCell_setCell, setCell_cell_self]
        by_cases h3 : ¬ is_valid s (setCell b i j 0) i j (cell b i j)
        · rw [if_pos h3]
          exact hrestore
        · rw [if_neg h3]
          rw [hrestore]
          exact ih b
      · rw [if_neg h2]
        exact ih b

/-- `validate_board` returns the grid in its entry state on every path. -/
theorem validate_board_grid (s : SudokuSolver) (b : Grid) :
    (validate_board s b).2.2 = b := by
  unfold validate_board
  by_cases h : (b.length != s.size || b.any fun row => row.length != s.size)
  · rw [if_pos h]
  · rw [if_neg h]
    exact checkCells_board s (rowMajor s.size) b

/-- The dimension test of `validate_board` succeeds exactly on well-formed
`size × size` grids. -/
theorem dims_check_iff (s : SudokuSolver) (b : Grid) :
    (b.length != s.size || b.any fun row => row.length != s.size) = false ↔
      WF s.size b := by
  unfold WF
  simp [List.any_eq_true]

/-- `checkCells` reports the first cell (in scan order) failing its per-cell
test, with the range message taking precedence over the conflict message at
that cell; if no cell fails it reports a valid board.  In both cases the
returned grid is the input grid. -/
theorem checkCells_spec (s : SudokuSolver) :
    ∀ (pts : List (Nat × Nat)) (b : Grid),
      (pts.find? (bad_cell s b) = none →
        checkCells s pts b = (true, "Valid board", b)) ∧
      (∀ p, pts.find? (bad_cell s b) = some p →
        checkCells s pts b = (false, cell_msg s b p, b)) := by
  intro pts
  induction pts with
  | nil =>
    intro b
    exact ⟨fun _ => rfl, fun p hp => by simp at hp⟩
  | cons q rest ih =>
    intro b
    obtain ⟨i, j⟩ := q
    rw [checkCells, List.find?_cons]
    dsimp only
    by_cases h1 : ¬(0 ≤ cell b i j ∧ cell b i j ≤ (s.size : Int))
    · rw [if_pos h1]
      have hbad : bad_cell s b (i, j) = true := by
        unfold bad_cell range_bad
        simp only [Bool.or_eq_true, Bool.not_eq_true', decide_eq_false_iff_not]
        exact Or.inl h1
      rw [hbad]
      constructor
      · intro h; exact absurd h (by simp)
      · intro p hp
        injection hp with hp
        subst hp
        unfold cell_msg
        rw [if_pos (by
          unfold range_bad
          simp only [Bool.not_eq_true', decide_eq_false_iff_not]
          exact h1)]
    · rw [if_neg h1]
      have hrange : range_bad s b (i, j) = false := by
        unfold range_bad
        simpa using not_not.mp h1
      by_cases h2 : cell b i j ≠ 0
      · rw [if_pos h2]
        have hrestore : setCell (setCell b i j 0) i j (cell b i j) = b := by
          rw [setCell_setCell, setCell_cell_self]
        by_cases h3 : ¬ is_valid s (setCell b i j 0) i j (cell b i j)
        · rw [if_pos h3]
          have hbad : bad_cell s b (i, j) = true := by
            unfold bad_cell conflict_bad
            simp only [Bool.or_eq_true, Bool.and_eq_true, bne_iff_ne,
              Bool.not_eq_true']
            exact Or.inr ⟨h2, by simpa using h3⟩
          rw [hbad]
          refine ⟨fun h => absurd h (by simp), ?_⟩
          intro p hp
          injection hp with hp
          subst hp
          unfold cell_msg
          rw [if_neg (by rw [hrange]; simp)]
          rw [hrestore]
        · rw [if_neg h3]
          have hbad : bad_cell s b (i, j) = false := by
            unfold bad_cell conflict_bad
            rw [hrange]
            simp only [Bool.false_or, Bool.and_eq_false_iff]
            right
            simpa using h3
          rw [hbad]
          rw [hrestore]
          exact ih b
      · rw [if_neg h2]
        have hbad : bad_cell s b (i, j) = false := by
          unfold bad_cell conflict_bad
          rw [hrange]
          simp only [Bool.false_or, Bool.and_eq_false_iff]
          left
          simpa using h2
        rw [hbad]
        exact ih b

/-- A well-formed, in-range, conflict-free board passes `validate_board` with
the success message and an unchanged grid. -/
theorem validate_board_of_good {s : SudokuSolver} {b : Grid}
    (hwf : WF s.size b) (hin : InRange s b) (hgood : Good s b) :
    validate_board s b = (true, "Valid board", b) := by
  unfold validate_board
  rw [if_neg (by rw [Bool.not_eq_true, dims_check_iff]; exact hwf)]
  refine (checkCells_spec s (rowMajor s.size) b).1 ?_
  rw [List.find?_eq_none]
  intro p hp
  unfold bad_cell range_bad conflict_bad
  simp only [Bool.or_eq_true, Bool.not_eq_true', decide_eq_false_iff_not,
    Bool.and_eq_true, bne_iff_ne]
  rintro (h | ⟨h2, h3⟩)
  · exact h (hin p hp)
  · rw [is_valid_setCell_target] at h3
    rw [hgood p hp h2] at h3
    simp at h3

/-! ## Grid extensionality and the copy helpers of `measure_performance` -/

theorem cell_eq_of_getD {b : Grid} {n i j : Nat} (hwf : WF n b)
    (hi : i < n) (hj : j < n) :
    (b.getD i []).getD j 0 = cell b i j := rfl

theorem gridExt {n : Nat} {a b : Grid} (ha : WF n a) (hb : WF n b)
    (hcell : ∀ i j, i < n → j < n → cell a i j = cell b i j) : a = b := by
  apply List.ext_getElem?
  intro i
  by_cases hi : i < n
  · have hia : i < a.length := by rw [ha.1]; exact hi
    have hib : i < b.length := by rw [hb.1]; exact hi
    rw [List.getElem?_eq_getElem hia, List.getElem?_eq_getElem hib]
    congr 1
    have hrowa : a[i].length = n := ha.2 _ (List.getElem_mem hia)
    have hrowb : b[i].length = n := hb.2 _ (List.getElem_mem hib)
    apply List.ext_getElem?
    intro j
    by_cases hj : j < n
    · have hja : j < a[i].length := by rw [hrowa]; exact hj
      have hjb : j < b[i].length := by rw [hrowb]; exact hj
      rw [List.getElem?_eq_getElem hja, List.getElem?_eq_getElem hjb]
      have hca : cell a i j = a[i][j] := by
        unfold cell
        rw [List.getD_eq_getElem?_getD a i [], List.getElem?_eq_getElem hia,
          Option.getD_some, List.getD_eq_getElem?_getD,
          List.getElem?_eq_getElem hja, Option.getD_some]
      have hcb : cell b i j = b[i][j] := by
        unfold cell
        rw [List.getD_eq_getElem?_getD b i [], List.getElem?_eq_getElem hib,
          Option.getD_some, List.getD_eq_getElem?_getD,
          List.getElem?_eq_getElem hjb, Option.getD_some]
      rw [← hca, ← hcb]
      rw [hcell i j hi hj]
    · rw [List.getElem?_eq_none (by rw [hrowa]; omega),
        List.getElem?_eq_none (by rw [hrowb]; omega)]
  · rw [List.getElem?_eq_none (by rw [ha.1]; omega),
      List.getElem?_eq_none (by rw [hb.1]; omega)]

theorem copyGrid_eq (b : Grid) : copyGrid b = b := by
  unfold copyGrid
  rw [show (fun row : List Int => row.map fun x => x) = fun row : List Int => row
    from funext fun row => List.map_id row]
  exact List.map_id b

theorem copyBack_foldl_cells (src : Grid) (n : Nat) :
    ∀ (pts : List (Nat × Nat)) (d : Grid), WF n d →
      (∀ p ∈ pts, p ∈ rowMajor n) →
      WF n (pts.foldl
        (fun d p => setCell d p.1 p.2 (cell src p.1 p.2)) d) ∧
      ∀ pi pj, pi < n → pj < n →
        cell (pts.foldl
          (fun d p => setCell d p.1 p.2 (cell src p.1 p.2)) d) pi pj =
          if (pi, pj) ∈ pts then cell src pi pj else cell d pi pj := by
  intro pts
  induction pts with
  | nil =>
    intro d hwf _
    refine ⟨hwf, ?_⟩
    intro pi pj _ _
    simp
  | cons q rest ih =>
    intro d hwf hmem
    obtain ⟨qi, qj⟩ := q
    rw [List.foldl_cons]
    have hqmem := hmem (qi, qj) (List.mem_cons_self _ _)
    rcases mem_rowMajor.mp hqmem with ⟨hqi, hqj⟩
    have hwf' : WF n (setCell d qi qj (cell src qi qj)) :=
      WF_setCell hwf qi qj _
    obtain ⟨hwfF, hcells⟩ := ih (setCell d qi qj (cell src qi qj)) hwf'
      (fun p hp => hmem p (List.mem_cons.mpr (Or.inr hp)))
    refine ⟨hwfF, ?_⟩
    intro pi pj hpi hpj
    rw [hcells pi pj hpi hpj]
    by_cases hin : (pi, pj) ∈ rest
    · rw [if_pos hin, if_pos (List.mem_cons.mpr (Or.inr hin))]
    · rw [if_neg hin]
      by_cases hpq : (pi, pj) = (qi, qj)
      · obtain ⟨rfl, rfl⟩ : pi = qi ∧ pj = qj :=
          ⟨congrArg Prod.fst hpq, congrArg Prod.snd hpq⟩
        rw [if_pos (List.mem_cons_self _ _)]
        exact cell_setCell_eq_of_WF hwf hpi hpj _
      · rw [if_neg (by
          intro hmem'
          rcases List.mem_cons.mp hmem' with h | h
          · exact hpq h
          · exact hin h)]
        exact cell_setCell_ne d qi qj pi pj _ hpq

/-- The copy-back loop of `measure_performance` overwrites the caller's
well-formed board with the solved copy. -/
theorem copyBack_eq {n : Nat} {dst src : Grid} (hdst : WF n dst)
    (hsrc : WF n src) : copyBack dst src n = src := by
  unfold copyBack
  obtain ⟨hwfF, hcells⟩ :=
    copyBack_foldl_cells src n (rowMajor n) dst hdst (fun p hp => hp)
  refine gridExt hwfF hsrc ?_
  intro i j hi hj
  rw [hcells i j hi hj, if_pos (mem_rowMajor.mpr ⟨hi, hj⟩)]

/-! ## Fuel bound: `size * size + 1` never runs out -/

theorem rowMajor_length (n : Nat) : (rowMajor n).length = n * n := by
  unfold rowMajor
  rw [List.length_flatMap]
  have h1 : (List.length ∘ fun i : Nat => (List.range n).map fun j => (i, j)) =
      Function.const Nat n := by
    funext i
    simp [Function.comp, Function.const]
  rw [h1, List.map_const, List.length_range, List.sum_replicate]
  simp [Nat.smul_one_eq_cast]

theorem emptyCount_le (n : Nat) (b : Grid) : emptyCount n b ≤ n * n := by
  unfold emptyCount
  calc (rowMajor n).countP (fun p => cell b p.1 p.2 == 0)
      ≤ (rowMajor n).length := List.countP_le_length _
    _ = n * n := rowMajor_length n

/-- On a well-formed, in-range, conflict-free board `measure_performance`
reduces to running the selected solver on a fresh state and copying the
solved board back on success. -/
theorem measure_performance_unfold_valid (tmo : Nat → Bool) (s : SudokuSolver)
    (b : Grid) (use_mrv : Bool) (hwf : WF s.size b) (hin : InRange s b)
    (hgood : Good s b) :
    measure_performance tmo s b use_mrv =
      (let r := if use_mrv then
          solve_with_mrv tmo s (s.size * s.size + 1) (startState b)
        else solve_simple tmo s (s.size * s.size + 1) (startState b)
       (r.1, r.2.clock, r.2.recursive_calls,
        if r.1 = true then copyBack b r.2.board s.size else b)) := by
  unfold measure_performance startState
  rw [copyGrid_eq]
  dsimp only
  rw [validate_board_of_good hwf hin hgood]

/-! ## Full characterisation of the MRV scan -/

/-- Invariant-carrying induction over the MRV scan.  `done` is the already
scanned prefix; the accumulator pair `(best, minOpt)` satisfies the loop
invariant of `find_best_empty`: `minOpt` is never `1` (that case returns
immediately), a `none` best means no empty cell has been scanned, and a
`some` best is the first scanned empty cell of candidate count `minOpt`,
every earlier empty cell having a strictly larger count (necessarily `≥ 2`)
and every later scanned empty cell a count `≥ minOpt`. -/
theorem findBestAux_char (s : SudokuSolver) (b : Grid) :
    ∀ (rest done : List (Nat × Nat)) (best : Option (Nat × Nat × List Int))
      (minOpt : Nat),
      rowMajor s.size = done ++ rest →
      minOpt ≠ 1 →
      (match best with
       | none => minOpt = s.size + 1 ∧ ∀ p ∈ done, cell b p.1 p.2 ≠ 0
       | some (bi, bj, bposs) =>
           cell b bi bj = 0 ∧ bposs = possible_values s b bi bj ∧
           bposs.length = minOpt ∧
           ∃ e1 e2, done = e1 ++ (bi, bj) :: e2 ∧
             (∀ p ∈ e1, cell b p.1 p.2 = 0 →
               minOpt < (possible_values s b p.1 p.2).length ∧
               2 ≤ (possible_values s b p.1 p.2).length) ∧
             (∀ p ∈ e2, cell b p.1 p.2 = 0 →
               minOpt ≤ (possible_values s b p.1 p.2).length)) →
      ∀ i j poss, findBestAux s b rest best minOpt = some (i, j, poss) →
        cell b i j = 0 ∧ poss = possible_values s b i j ∧
        ∃ d1 d2, rowMajor s.size = d1 ++ (i, j) :: d2 ∧
          (∀ p ∈ d1, cell b p.1 p.2 = 0 →
            poss.length < (possible_values s b p.1 p.2).length ∧
            2 ≤ (possible_values s b p.1 p.2).length) ∧
          (poss.length = 1 ∨
            ∀ p ∈ d2, cell b p.1 p.2 = 0 →
              poss.length ≤ (possible_values s b p.1 p.2).length) := by
  intro rest
  induction rest with
  | nil =>
    intro done best minOpt hsplit hmin hinv i j poss hres
    rw [findBestAux] at hres
    cases best with
    | none => exact Option.noConfusion hres
    | some x =>
      obtain ⟨bi, bj, bposs⟩ := x
      obtain ⟨rfl, rfl, rfl⟩ : bi = i ∧ bj = j ∧ bposs = poss := by
        injection hres with hres
        exact ⟨congrArg (fun t => t.1) hres, congrArg (fun t => t.2.1) hres,
          congrArg (fun t => t.2.2) hres⟩
      obtain ⟨hcz, hpv, hlen, e1, e2, hdone, he1, he2⟩ := hinv
      refine ⟨hcz, hpv, e1, e2, ?_, ?_, Or.inr ?_⟩
      · rw [hsplit, hdone, List.append_nil]
      · intro p hp hep
        have := he1 p hp hep
        omega
      · intro p hp hep
        have := he2 p hp hep
        omega
  | cons q rest ih =>
    intro done best minOpt hsplit hmin hinv i j poss hres
    obtain ⟨pi, pj⟩ := q
    rw [findBestAux] at hres
    have hsplit' : rowMajor s.size = (done ++ [(pi, pj)]) ++ rest := by
      rw [hsplit, List.append_assoc, List.singleton_append]
    by_cases hc : cell b pi pj == 0
    · rw [if_pos hc] at hres
      have hcz : cell b pi pj = 0 := by simpa using hc
      by_cases hlt : (possible_values s b pi pj).length < minOpt
      · rw [if_pos hlt] at hres
        by_cases hone : (possible_values s b pi pj).length == 1
        · rw [if_pos hone] at hres
          have hone' : (possible_values s b pi pj).length = 1 := by
            simpa using hone
          obtain ⟨rfl, rfl, rfl⟩ : pi = i ∧ pj = j ∧
              possible_values s b pi pj = poss := by
            injection hres with hres
            exact ⟨congrArg (fun t => t.1) hres,
              congrArg (fun t => t.2.1) hres, congrArg (fun t => t.2.2) hres⟩
          refine ⟨hcz, rfl, done, rest, hsplit, ?_, Or.inl hone'⟩
          intro p hp hep
          cases best with
          | none =>
            exact absurd hep (hinv.2 p hp)
          | some x =>
            obtain ⟨bi, bj, bposs⟩ := x
            obtain ⟨hbz, hbpv, hblen, e1, e2, hdone, he1, he2⟩ := hinv
            rw [hone']
            have hmin2 : 2 ≤ minOpt := by omega
            rw [hdone] at hp
            rcases List.mem_append.mp hp with hp1 | hp2
            · have := he1 p hp1 hep
              omega
            · rcases List.mem_cons.mp hp2 with rfl | hp3
              · rw [← hbpv]
                omega
              · have := he2 p hp3 hep
                omega
        · rw [if_neg hone] at hres
          have hone' : (possible_values s b pi pj).length ≠ 1 := by
            simpa using hone
          refine ih (done ++ [(pi, pj)]) _ _ hsplit' hone' ?_ i j poss hres
          refine ⟨hcz, rfl, rfl, done, [], rfl, ?_, ?_⟩
          · intro p hp hep
            cases best with
            | none =>
              exact absurd hep (hinv.2 p hp)
            | some x =>
              obtain ⟨bi, bj, bposs⟩ := x
              obtain ⟨hbz, hbpv, hblen, e1, e2, hdone, he1, he2⟩ := hinv
              have hmin2 : 2 ≤ minOpt := by
                have hge : 1 ≤ minOpt := by
                  have := possible_values_length_le s b pi pj
                  omega
                omega
              rw [hdone] at hp
              rcases List.mem_append.mp hp with hp1 | hp2
              · have := he1 p hp1 hep
                omega
              · rcases List.mem_cons.mp hp2 with rfl | hp3
                · rw [← hbpv]
                  omega
                · have := he2 p hp3 hep
                  omega
          · intro p hp
            exact absurd hp (List.not_mem_nil p)
      · rw [if_neg hlt] at hres
        cases best with
        | none =>
          exfalso
          have hbound := possible_values_length_le s b pi pj
          rw [hinv.1] at hlt
          omega
        | some x =>
          obtain ⟨bi, bj, bposs⟩ := x
          obtain ⟨hbz, hbpv, hblen, e1, e2, hdone, he1, he2⟩ := hinv
          refine ih (done ++ [(pi, pj)]) _ _ hsplit' hmin ?_ i j poss hres
          refine ⟨hbz, hbpv, hblen, e1, e2 ++ [(pi, pj)], ?_, he1, ?_⟩
          · rw [hdone]
            simp
          · intro p hp hep
            rcases List.mem_append.mp hp with hp1 | hp2
            · exact he2 p hp1 hep
            · rcases List.mem_singleton.mp hp2 with rfl
              dsimp only
              omega
    · rw [if_neg hc] at hres
      have hcnz : cell b pi pj ≠ 0 := by simpa using hc
      refine ih (done ++ [(pi, pj)]) _ _ hsplit' hmin ?_ i j poss hres
      cases best with
      | none =>
        refine ⟨hinv.1, ?_⟩
        intro p hp
        rcases List.mem_append.mp hp with hp1 | hp2
        · exact hinv.2 p hp1
        · rcases List.mem_singleton.mp hp2 with rfl
          exact hcnz
      | some x =>
        obtain ⟨bi, bj, bposs⟩ := x
        obtain ⟨hbz, hbpv, hblen, e1, e2, hdone, he1, he2⟩ := hinv
        refine ⟨hbz, hbpv, hblen, e1, e2 ++ [(pi, pj)], ?_, he1, ?_⟩
        · rw [hdone]
          simp
        · intro p hp hep
          rcases List.mem_append.mp hp with hp1 | hp2
          · exact he2 p hp1 hep
          · rcases List.mem_singleton.mp hp2 with rfl
            exact absurd hep hcnz

theorem solver4_eq_init : solver4 = SudokuSolver.init 4 := by
  unfold solver4 SudokuSolver.init
  have h : Nat.sqrt 4 = 2 := Nat.sqrt_eq 2
  rw [h]

theorem solver9_eq_init : solver9 = SudokuSolver.init 9 := by
  unfold solver9 SudokuSolver.init
  have h : Nat.sqrt 9 = 3 := Nat.sqrt_eq 3
  rw [h]

/-! ## Claim theorems -/

/-- C1: for every valid (well-formed, in-range, conflict-free), fully
solvable grid, given sufficient deadline (the timeout predicate never fires),
`measure_performance` with either strategy returns solved, the grid written
back to the caller has every cell holding a value in `[1, size]` that passes
`is_valid` against the rest of the grid, and re-running `validate_board` on
that grid reports a valid board. -/
theorem measure_performance_solvable_roundtrip (s : SudokuSolver) (b : Grid)
    (hsq : s.subgrid_size * s.subgrid_size = s.size) (hwf : WF s.size b)
    (hin : InRange s b) (hgood : Good s b) (hsolv : ∃ sol, Solution s b sol)
    (use_mrv : Bool) :
    (measure_performance (fun _ => false) s b use_mrv).1 = true ∧
    (∀ p ∈ rowMajor s.size,
      1 ≤ cell (measure_performance (fun _ => false) s b use_mrv).2.2.2 p.1 p.2 ∧
      cell (measure_performance (fun _ => false) s b use_mrv).2.2.2 p.1 p.2 ≤
        (s.size : Int) ∧
      is_valid s (measure_performance (fun _ => false) s b use_mrv).2.2.2 p.1 p.2
        (cell (measure_performance (fun _ => false) s b use_mrv).2.2.2 p.1 p.2) =
        true) ∧
    validate_board s (measure_performance (fun _ => false) s b use_mrv).2.2.2 =
      (true, "Valid board",
        (measure_performance (fun _ => false) s b use_mrv).2.2.2) := by
  have hfuel : emptyCount s.size b < s.size * s.size + 1 :=
    Nat.lt_succ_of_le (emptyCount_le s.size b)
  have hcomp : (if use_mrv = true then
      solve_with_mrv (fun _ => false) s (s.size * s.size + 1) (startState b)
    else solve_simple (fun _ => false) s (s.size * s.size + 1)
      (startState b)).1 = true := by
    cases use_mrv
    · exact solve_simple_complete s hsq _ (startState b) hwf hin hgood hsolv hfuel
    · exact solve_with_mrv_complete s hsq _ (startState b) hwf hin hgood hsolv hfuel
  have hsound : WF s.size (if use_mrv = true then
        solve_with_mrv (fun _ => false) s (s.size * s.size + 1) (startState b)
      else solve_simple (fun _ => false) s (s.size * s.size + 1)
        (startState b)).2.board ∧
      InRange s (if use_mrv = true then
        solve_with_mrv (fun _ => false) s (s.size * s.size + 1) (startState b)
      else solve_simple (fun _ => false) s (s.size * s.size + 1)
        (startState b)).2.board ∧
      Good s (if use_mrv = true then
        solve_with_mrv (fun _ => false) s (s.size * s.size + 1) (startState b)
      else solve_simple (fun _ => false) s (s.size * s.size + 1)
        (startState b)).2.board ∧
      Complete s.size (if use_mrv = true then
        solve_with_mrv (fun _ => false) s (s.size * s.size + 1) (startState b)
      else solve_simple (fun _ => false) s (s.size * s.size + 1)
        (startState b)).2.board := by
    cases use_mrv
    · have hp := solve_simple_sound (fun _ => false) s hsq _ (startState b)
        hwf hin hgood hcomp
      exact ⟨hp.1, hp.2.1, hp.2.2.1, hp.2.2.2.1⟩
    · have hp := solve_with_mrv_sound (fun _ => false) s hsq _ (startState b)
        hwf hin hgood hcomp
      exact ⟨hp.1, hp.2.1, hp.2.2.1, hp.2.2.2.1⟩
  rw [measure_performance_unfold_valid (fun _ => false) s b use_mrv hwf hin hgood]
  dsimp only
  rw [if_pos hcomp, copyBack_eq hwf hsound.1]
  refine ⟨hcomp, ?_, validate_board_of_good hsound.1 hsound.2.1 hsound.2.2.1⟩
  intro p hp
  have h1 := hsound.2.1 p hp
  have h2 := hsound.2.2.2 p hp
  have h3 := hsound.2.2.1 p hp
  exact ⟨by omega, h1.2, h3 h2⟩

/-- C1 witness: the 4×4 test-case grid of the source solves and re-validates. -/
theorem measure_performance_solvable_roundtrip_witness :
    (measure_performance (fun _ => false) solver4 grid44 true).1 = true ∧
    (∀ p ∈ rowMajor solver4.size,
      1 ≤ cell (measure_performance (fun _ => false) solver4 grid44 true).2.2.2
        p.1 p.2 ∧
      cell (measure_performance (fun _ => false) solver4 grid44 true).2.2.2
        p.1 p.2 ≤ (solver4.size : Int) ∧
      is_valid solver4
        (measure_performance (fun _ => false) solver4 grid44 true).2.2.2 p.1 p.2
        (cell (measure_performance (fun _ => false) solver4 grid44 true).2.2.2
          p.1 p.2) = true) ∧
    validate_board solver4
        (measure_performance (fun _ => false) solver4 grid44 true).2.2.2 =
      (true, "Valid board",
        (measure_performance (fun _ => false) solver4 grid44 true).2.2.2) :=
  measure_performance_solvable_roundtrip solver4 grid44 (by decide) (by decide)
    (by decide) (by decide)
    ⟨[[1, 3, 4, 2], [2, 4, 3, 1], [4, 2, 1, 3], [3, 1, 2, 4]], by decide⟩ true

/-- C2 counterexample: with a deadline that expires right after the first
poll, `solve_with_mrv` on the empty 4×4 board reports the timeout via the
flag but returns a board identical to the input — every tentative assignment
was rolled back — and the clock value 5 shows the root call went on to try
all four candidates (one deadline poll each) after the first timed-out
recursive return, instead of propagating it immediately. -/
theorem timeout_rollback_counterexample :
    solve_with_mrv (fun k => decide (1 ≤ k)) solver4 17 (startState gridEmpty4) =
      (false, { board := gridEmpty4, clock := 5, recursive_calls := 1,
                time_limit_exceeded := true }) := by decide

/-- C2 (amended): when the deadline has been exceeded at entry the call
returns `False` at once with `time_limit_exceeded` set and the board
untouched; and every failing return of `solve_with_mrv` — the timeout case
included — hands back a board equal to the board at entry, because each
enclosing level undoes its tentative assignment while iterating its
remaining candidates (each of which immediately fails the deadline check). -/
theorem solve_with_mrv_timeout_behavior (tmo : Nat → Bool) (s : SudokuSolver)
    (fuel : Nat) (st : SState) :
    (tmo st.clock = true → solve_with_mrv tmo s (fuel + 1) st =
      (false, { st with clock := st.clock + 1, time_limit_exceeded := true })) ∧
    ((solve_with_mrv tmo s fuel st).1 = false →
      (solve_with_mrv tmo s fuel st).2.board = st.board) := by
  constructor
  · intro ht
    rw [solve_with_mrv, if_pos ht]
  · exact solve_with_mrv_false_board tmo s fuel st

/-- C2 witness: immediate abort and rollback at a concrete run. -/
theorem solve_with_mrv_timeout_behavior_witness :
    solve_with_mrv (fun _ => true) solver4 (16 + 1) (startState gridEmpty4) =
      (false, { startState gridEmpty4 with
        clock := (startState gridEmpty4).clock + 1,
        time_limit_exceeded := true }) ∧
    (solve_with_mrv (fun _ => true) solver4 16 (startState gridEmpty4)).2.board =
      (startState gridEmpty4).board :=
  ⟨(solve_with_mrv_timeout_behavior (fun _ => true) solver4 16
      (startState gridEmpty4)).1 rfl,
   (solve_with_mrv_timeout_behavior (fun _ => true) solver4 16
      (startState gridEmpty4)).2 (by decide)⟩

/-- C3: whenever a solve call returns a failing result, the board handed
back equals the board at entry — every tentative assignment has been undone.
This holds for both `solve_with_mrv` and `solve_simple`, at any state, hence
at every recursion level (each recursive call is itself such a call). -/
theorem solver_failure_restores_board (tmo : Nat → Bool) (s : SudokuSolver)
    (fuel : Nat) (st : SState) :
    ((solve_with_mrv tmo s fuel st).1 = false →
      (solve_with_mrv tmo s fuel st).2.board = st.board) ∧
    ((solve_simple tmo s fuel st).1 = false →
      (solve_simple tmo s fuel st).2.board = st.board) :=
  ⟨solve_with_mrv_false_board tmo s fuel st,
   solve_simple_false_board tmo s fuel st⟩

/-- C3 witness: an unsolvable but conflict-free grid is returned unchanged
by both strategies. -/
theorem solver_failure_restores_board_witness :
    (solve_with_mrv (fun _ => false) solver4 17 (startState gridStuck)).1 =
      false ∧
    (solve_with_mrv (fun _ => false) solver4 17 (startState gridStuck)).2.board =
      (startState gridStuck).board ∧
    (solve_simple (fun _ => false) solver4 17 (startState gridStuck)).1 =
      false ∧
    (solve_simple (fun _ => false) solver4 17 (startState gridStuck)).2.board =
      (startState gridStuck).board :=
  ⟨by decide,
   (solver_failure_restores_board (fun _ => false) solver4 17
      (startState gridStuck)).1 (by decide),
   by decide,
   (solver_failure_restores_board (fun _ => false) solver4 17
      (startState gridStuck)).2 (by decide)⟩

/-- C4 counterexample: constructing a solver with size 8 — a size with no
integer square root — succeeds silently, producing `subgrid_size = 2`; the
constructor has no failure path at all, contradicting the claimed
`ConfigurationError`. -/
theorem init_accepts_non_square_counterexample :
    SudokuSolver.init 8 = { size := 8, subgrid_size := 2 } := by
  unfold SudokuSolver.init
  have h : Nat.sqrt 8 = 2 := by
    have h1 : 2 ≤ Nat.sqrt 8 := Nat.le_sqrt.mpr (by norm_num)
    have h2 : Nat.sqrt 8 < 3 := Nat.sqrt_lt.mpr (by norm_num)
    omega
  rw [h]

/-- C4 (amended): construction never fails — for every requested size `N`
the constructor returns a solver whose `size` is `N` and whose
`subgrid_size` is the floor square root of `N` (so for non-square `N` the
boxes silently fail to partition the grid instead of an error being
raised). -/
theorem init_never_fails (N : Nat) :
    (SudokuSolver.init N).size = N ∧
    (SudokuSolver.init N).subgrid_size * (SudokuSolver.init N).subgrid_size ≤
      N ∧
    N < ((SudokuSolver.init N).subgrid_size + 1) *
      ((SudokuSolver.init N).subgrid_size + 1) := by
  refine ⟨rfl, ?_, ?_⟩
  · have h := Nat.sqrt_le' N
    rw [pow_two] at h
    exact h
  · have h := Nat.lt_succ_sqrt' N
    rw [Nat.succ_eq_add_one, pow_two] at h
    exact h

/-- C5 counterexample: on `gridDeadEnd` the MRV selector returns the cell
`(0,0)` with the *empty* candidate list — candidate-set size `0` — even
though the empty cell `(2,1)` has the nonzero candidate-set size `1`; so the
returned size is not "the smallest nonzero candidate-set size", and no
short-circuit on the size-1 cell happens once a size-0 cell has been seen. -/
theorem find_best_empty_dead_end_counterexample :
    find_best_empty solver4 gridDeadEnd = some (0, 0, []) ∧
    cell gridDeadEnd 2 1 = 0 ∧
    possible_values solver4 gridDeadEnd 2 1 = [4] := by decide

/-- C5 (amended): `find_best_empty` returns `none` iff no empty cell exists;
otherwise it returns an empty cell with exactly its candidate list, in
ascending order, such that every *earlier* empty cell of the row-major scan
has a strictly larger candidate count (necessarily `≥ 2`), and either the
returned count is exactly `1` (the short-circuit case — a later cell may
then still have count `0`) or the returned count is minimal among all empty
cells. -/
theorem find_best_empty_characterization (s : SudokuSolver) (b : Grid) :
    (find_best_empty s b = none ↔
      ∀ p ∈ rowMajor s.size, cell b p.1 p.2 ≠ 0) ∧
    (∀ i j poss, find_best_empty s b = some (i, j, poss) →
      cell b i j = 0 ∧ poss = possible_values s b i j ∧
      List.Sorted (· < ·) poss ∧
      ∃ d1 d2, rowMajor s.size = d1 ++ (i, j) :: d2 ∧
        (∀ p ∈ d1, cell b p.1 p.2 = 0 →
          poss.length < (possible_values s b p.1 p.2).length ∧
          2 ≤ (possible_values s b p.1 p.2).length) ∧
        (poss.length = 1 ∨
          ∀ p ∈ d2, cell b p.1 p.2 = 0 →
            poss.length ≤ (possible_values s b p.1 p.2).length)) := by
  refine ⟨find_best_empty_eq_none_iff, ?_⟩
  intro i j poss hres
  by_cases hN : s.size = 0
  · exfalso
    have hnone : find_best_empty s b = none := by
      unfold find_best_empty rowMajor
      rw [hN]
      rfl
    rw [hnone] at hres
    exact Option.noConfusion hres
  have hchar := findBestAux_char s b (rowMajor s.size) [] none (s.size + 1)
    rfl (by omega) ⟨rfl, fun p hp => absurd hp (List.not_mem_nil p)⟩
    i j poss hres
  obtain ⟨h1, h2, d1, d2, hsplit, hd1, hd2⟩ := hchar
  refine ⟨h1, h2, ?_, d1, d2, hsplit, hd1, hd2⟩
  rw [h2]
  exact sorted_possible_values s b i j

/-- C5 witness: the characterisation applied to the selection made on the
almost-complete grid. -/
theorem find_best_empty_characterization_witness :
    cell gridAlmost 3 3 = 0 ∧
    [(1 : Int)] = possible_values solver4 gridAlmost 3 3 ∧
    List.Sorted (· < ·) [(1 : Int)] ∧
    ∃ d1 d2, rowMajor solver4.size = d1 ++ (3, 3) :: d2 ∧
      (∀ p ∈ d1, cell gridAlmost p.1 p.2 = 0 →
        [(1 : Int)].length <
          (possible_values solver4 gridAlmost p.1 p.2).length ∧
        2 ≤ (possible_values solver4 gridAlmost p.1 p.2).length) ∧
      ([(1 : Int)].length = 1 ∨
        ∀ p ∈ d2, cell gridAlmost p.1 p.2 = 0 →
          [(1 : Int)].length ≤
            (possible_values solver4 gridAlmost p.1 p.2).length) :=
  (find_best_empty_characterization solver4 gridAlmost).2 3 3 [1] (by decide)

/-- C6 counterexample: `gridMixedErr` holds a conflict at the early cell
`(0,0)` and an out-of-range value `9` at the later cell `(2,3)`;
`validate_board` reports the conflict, so an out-of-range error is *not*
always reported before a conflict error. -/
theorem validate_conflict_before_range_counterexample :
    validate_board solver4 gridMixedErr =
      (false, "Conflict: 1 at (0,0) violates Sudoku rules", gridMixedErr) ∧
    cell gridMixedErr 2 3 = 9 ∧
    ¬(cell gridMixedErr 2 3 ≤ (solver4.size : Int)) := by decide

/-- C6 (amended): `validate_board` reports the dimension error first; then
cells are scanned in row-major order with the value-range check preceding
the conflict check *per cell*, and the first failing check is reported — so
a conflict at an earlier cell is reported before an out-of-range value at a
later cell.  The message carries the offending cell address and value (or
the expected dimensions), and the grid is returned unchanged. -/
theorem validate_board_first_violation (s : SudokuSolver) (b : Grid) :
    (¬ WF s.size b → validate_board s b = (false, dim_msg s, b)) ∧
    (WF s.size b → (rowMajor s.size).find? (bad_cell s b) = none →
      validate_board s b = (true, "Valid board", b)) ∧
    (WF s.size b → ∀ p, (rowMajor s.size).find? (bad_cell s b) = some p →
      validate_board s b = (false, cell_msg s b p, b)) := by
  refine ⟨?_, ?_, ?_⟩
  · intro hwf
    unfold validate_board
    rcases hbool : (b.length != s.size ||
        b.any fun row => row.length != s.size) with - | -
    · exact absurd ((dims_check_iff s b).mp hbool) hwf
    · rw [if_pos rfl]
  · intro hwf hfind
    unfold validate_board
    rw [if_neg (by rw [Bool.not_eq_true, dims_check_iff]; exact hwf)]
    exact (checkCells_spec s (rowMajor s.size) b).1 hfind
  · intro hwf p hfind
    unfold validate_board
    rw [if_neg (by rw [Bool.not_eq_true, dims_check_iff]; exact hwf)]
    exact (checkCells_spec s (rowMajor s.size) b).2 p hfind

/-- C6 witness: the dimension error branch on a 1×1 grid handed to the 4×4
solver. -/
theorem validate_board_first_violation_witness :
    validate_board solver4 [[1]] = (false, dim_msg solver4, [[1]]) :=
  (validate_board_first_violation solver4 [[1]]).1 (by decide)

/-- C7: `validate_board` returns the grid bit-for-bit equal to its entry
state on every path — dimension error, range error, conflict error (where
the temporarily blanked cell is restored before returning) and success —
and therefore a second run on the returned grid gives the same result. -/
theorem validate_board_frame_idempotent (s : SudokuSolver) (b : Grid) :
    (validate_board s b).2.2 = b ∧
    validate_board s ((validate_board s b).2.2) = validate_board s b := by
  refine ⟨validate_board_grid s b, ?_⟩
  rw [validate_board_grid s b]

/-- The stuck grid is unsolvable: any solution would have to place a value
at cell `(0,3)`, but `1`, `2` and `3` already occur in row 0 and `4` in
column 3. -/
theorem gridStuck_unsolvable : ¬∃ sol, Solution solver4 gridStuck sol := by
  rintro ⟨sol, hwfS, hcompS, hinS, hgoodS, hext⟩
  have hmem : ((0 : Nat), (3 : Nat)) ∈ rowMajor solver4.size := by decide
  have hv1 : 1 ≤ cell sol 0 3 := by
    have h1 := (hinS (0, 3) hmem).1
    have h2 := hcompS (0, 3) hmem
    dsimp only at h1 h2
    omega
  have hv4 : cell sol 0 3 ≤ 4 := by
    have h1 := (hinS (0, 3) hmem).2
    dsimp only at h1
    have h2 : ((solver4.size : Nat) : Int) = 4 := by decide
    omega
  have hval := hgoodS (0, 3) hmem (by dsimp only; omega)
  dsimp only at hval
  rw [is_valid_eq_true_prop] at hval
  have h00 : cell sol 0 0 = 1 := by
    have h := hext (0, 0) (by decide) (by decide)
    dsimp only at h
    rw [h]; decide
  have h01 : cell sol 0 1 = 2 := by
    have h := hext (0, 1) (by decide) (by decide)
    dsimp only at h
    rw [h]; decide
  have h02 : cell sol 0 2 = 3 := by
    have h := hext (0, 2) (by decide) (by decide)
    dsimp only at h
    rw [h]; decide
  have h33 : cell sol 3 3 = 4 := by
    have h := hext (3, 3) (by decide) (by decide)
    dsimp only at h
    rw [h]; decide
  have hcases : cell sol 0 3 = 1 ∨ cell sol 0 3 = 2 ∨ cell sol 0 3 = 3 ∨
      cell sol 0 3 = 4 := by omega
  rcases hcases with h | h | h | h
  · exact hval.1 0 (by decide) ⟨by rw [h00, h], by omega⟩
  · exact hval.1 1 (by decide) ⟨by rw [h01, h], by omega⟩
  · exact hval.1 2 (by decide) ⟨by rw [h02, h], by omega⟩
  · exact hval.2.1 3 (by decide) ⟨by rw [h33, h], by omega⟩

/-- C8: on every valid (well-formed, in-range, conflict-free) grid, with a
deadline that never fires, the MRV strategy and the simple exhaustive-scan
strategy return the same outcome from `measure_performance`: both solved or
both exhausted; and every unsolvable such grid — one admitting no complete
conflict-free extension — yields the failing (exhausted) result under both
strategies. -/
theorem strategies_same_outcome (s : SudokuSolver) (b : Grid)
    (hsq : s.subgrid_size * s.subgrid_size = s.size) (hwf : WF s.size b)
    (hin : InRange s b) (hgood : Good s b) :
    ((measure_performance (fun _ => false) s b true).1 =
      (measure_performance (fun _ => false) s b false).1) ∧
    (¬(∃ sol, Solution s b sol) →
      (measure_performance (fun _ => false) s b true).1 = false ∧
      (measure_performance (fun _ => false) s b false).1 = false) := by
  rw [measure_performance_unfold_valid (fun _ => false) s b true hwf hin hgood,
    measure_performance_unfold_valid (fun _ => false) s b false hwf hin hgood]
  dsimp only
  rw [if_pos (show (true = true) from rfl), if_neg (show ¬(false = true) by simp)]
  have hfuel : emptyCount s.size b < s.size * s.size + 1 :=
    Nat.lt_succ_of_le (emptyCount_le s.size b)
  by_cases hsolv : ∃ sol, Solution s b sol
  · constructor
    · rw [solve_with_mrv_complete s hsq _ (startState b) hwf hin hgood hsolv
        hfuel,
        solve_simple_complete s hsq _ (startState b) hwf hin hgood hsolv hfuel]
    · intro hns
      exact absurd hsolv hns
  · have h1 : (solve_with_mrv (fun _ => false) s (s.size * s.size + 1)
        (startState b)).1 = false := by
      rcases hb : (solve_with_mrv (fun _ => false) s (s.size * s.size + 1)
        (startState b)).1 with - | -
      · rfl
      · exfalso
        have hp := solve_with_mrv_sound (fun _ => false) s hsq _ (startState b)
          hwf hin hgood hb
        exact hsolv ⟨_, hp.1, hp.2.2.2.1, hp.2.1, hp.2.2.1, hp.2.2.2.2⟩
    have h2 : (solve_simple (fun _ => false) s (s.size * s.size + 1)
        (startState b)).1 = false := by
      rcases hb : (solve_simple (fun _ => false) s (s.size * s.size + 1)
        (startState b)).1 with - | -
      · rfl
      · exfalso
        have hp := solve_simple_sound (fun _ => false) s hsq _ (startState b)
          hwf hin hgood hb
        exact hsolv ⟨_, hp.1, hp.2.2.2.1, hp.2.1, hp.2.2.1, hp.2.2.2.2⟩
    exact ⟨by rw [h1, h2], fun _ => ⟨h1, h2⟩⟩

/-- C8 witness: on the unsolvable but valid grid `gridStuck` both strategies
agree and both return the failing (exhausted) result. -/
theorem strategies_same_outcome_witness :
    ((measure_performance (fun _ => false) solver4 gridStuck true).1 =
      (measure_performance (fun _ => false) solver4 gridStuck false).1) ∧
    ((measure_performance (fun _ => false) solver4 gridStuck true).1 = false ∧
      (measure_performance (fun _ => false) solver4 gridStuck false).1 =
        false) :=
  have h := strategies_same_outcome solver4 gridStuck (by decide) (by decide)
    (by decide) (by decide)
  ⟨h.1, h.2 gridStuck_unsolvable⟩

/-- C9: for in-range cell addresses and configurations whose box size
squares to the grid size, `is_valid` returns `false` exactly when the value
already occurs at a *different* in-range cell of the same row, the same
column, or the same box (so a cell currently holding the candidate value
does not conflict with itself), and returns `true` otherwise.  The embedded
function is pure — it only reads the grid, as the Python does. -/
theorem is_valid_conflict_characterization (s : SudokuSolver) (b : Grid)
    (row col : Nat) (num : Int)
    (hsq : s.subgrid_size * s.subgrid_size = s.size)
    (hrow : row < s.size) (hcol : col < s.size)
    (hnum : 1 ≤ num ∧ num ≤ (s.size : Int)) :
    is_valid s b row col num = false ↔
      ∃ i j, i < s.size ∧ j < s.size ∧ (i, j) ≠ (row, col) ∧
        cell b i j = num ∧
        (i = row ∨ j = col ∨
          (i / s.subgrid_size = row / s.subgrid_size ∧
           j / s.subgrid_size = col / s.subgrid_size)) :=
  is_valid_eq_false_char s b row col num hsq hrow hcol

/-- C9 witness: the characterisation instantiated at a concrete cell of the
almost-complete grid. -/
theorem is_valid_conflict_characterization_witness :
    is_valid solver4 gridAlmost 3 3 1 = false ↔
      ∃ i j, i < solver4.size ∧ j < solver4.size ∧ (i, j) ≠ (3, 3) ∧
        cell gridAlmost i j = 1 ∧
        (i = 3 ∨ j = 3 ∨
          (i / solver4.subgrid_size = 3 / solver4.subgrid_size ∧
           j / solver4.subgrid_size = 3 / solver4.subgrid_size)) :=
  is_valid_conflict_characterization solver4 gridAlmost 3 3 1 (by decide)
    (by decide) (by decide) (by decide)

/-- C10: under the precondition that the configured size `N` is a perfect
square (so that `subgrid_size = isqrt N` satisfies `B * B = N`), every index
of the box scan of `is_valid` — the offsets `box_start + o` for
`o < subgrid_size`, in both the row and the column dimension — stays below
`N`: no out-of-bounds access occurs. -/
theorem box_scan_in_bounds (N B idx : Nat) (hB : B * B = N)
    (hidx : idx < (SudokuSolver.init N).size) :
    ∀ o, o < (SudokuSolver.init N).subgrid_size →
      box_start (SudokuSolver.init N) idx + o < (SudokuSolver.init N).size := by
  intro o ho
  have hsq : (SudokuSolver.init N).subgrid_size *
      (SudokuSolver.init N).subgrid_size = (SudokuSolver.init N).size := by
    show Nat.sqrt N * Nat.sqrt N = N
    rw [← hB, Nat.sqrt_eq]
  have hle := box_start_add_le hsq hidx
  omega

/-- C10 witness: the 9×9 configuration at row index 5, offset 2. -/
theorem box_scan_in_bounds_witness :
    3 * 3 = 9 ∧ 5 < (SudokuSolver.init 9).size ∧
    box_start (SudokuSolver.init 9) 5 + 2 < (SudokuSolver.init 9).size :=
  ⟨by norm_num, by decide,
   box_scan_in_bounds 9 3 5 (by norm_num) (by decide) 2 (by
     show 2 < Nat.sqrt 9
     rw [show (9 : Nat) = 3 * 3 from rfl, Nat.sqrt_eq]
     norm_num)⟩
